import Mathlib

/-!
Verification development for `darwin-to-gtfs-realtime`, a bridge from the UK
Darwin Push Port stream to a GTFS-Realtime feed.

The Rust sources are embedded shallowly:
* concurrent `DashMap`s become association lists with unique keys
  (`mapInsert` overwrites an existing key in place, like `DashMap::insert`);
* `update_trip` (src/processor.rs), `cleanup_old_trips` (src/gc.rs),
  `save_state`/`load_state` (src/persistence.rs) and `parse_time`
  (src/processor.rs) become pure functions over an explicit `AppState`;
* `Utc::now()` and the chrono Europe/London conversion used for `start_date`
  become explicit parameters (`today`, `londonFmt`);
* the static GTFS index (`GTFSManager`) becomes a record of lookup functions;
* Rust's `Vec::sort_by_key` (a stable sort) becomes the stable insertion
  sort `sortByKey`;
* the `.unwrap()` on `entity.trip_update` in `update_trip` is modelled by
  returning `none` (the panic case) from `updateTrip`.
-/

namespace Darwin

/-! ### Generic association-list maps (model of DashMap) -/

/-- `DashMap::insert`: overwrite the entry with key `k` in place, else append. -/
def mapInsert {β : Type} (k : String) (v : β) : List (String × β) → List (String × β)
  | [] => [(k, v)]
  | (k', v') :: rest => if k' = k then (k, v) :: rest else (k', v') :: mapInsert k v rest

/-- `DashMap::get`: first value stored under key `k`. -/
def mapLookup {β : Type} (k : String) : List (String × β) → Option β
  | [] => none
  | (k', v') :: rest => if k' = k then some v' else mapLookup k rest

/-- `DashMap::remove`: drop the entry with key `k`. -/
def mapRemove {β : Type} (k : String) (m : List (String × β)) : List (String × β) :=
  m.filter (fun kv => kv.1 ≠ k)

/-- `iter().position(p)` followed by in-place replacement, else `push`:
the upsert idiom used throughout `processor.rs`. -/
def upsertBy {α : Type} (p : α → Prop) [DecidablePred p] (v : α) : List α → List α
  | [] => [v]
  | u :: rest => if p u then v :: rest else u :: upsertBy p v rest

/-- One step of the stable insertion sort: insert `a` before the first
element whose key is not smaller. -/
def orderedInsertK {α : Type} (key : α → Nat) (a : α) : List α → List α
  | [] => [a]
  | b :: l => if key a ≤ key b then a :: b :: l else b :: orderedInsertK key a l

/-- Stable sort by a `Nat` key; model of Rust's stable `Vec::sort_by_key`. -/
def sortByKey {α : Type} (key : α → Nat) : List α → List α
  | [] => []
  | a :: l => orderedInsertK key a (sortByKey key l)

/-! ### Characters, numbers, dates and times

`parse_time` in src/processor.rs uses `str::split(':')`, `str::parse::<u32>`,
`NaiveDate::parse_from_str(ssd, "%Y-%m-%d")`, `NaiveDate::and_hms_opt` and
`NaiveDateTime::and_utc().timestamp()`.  These external routines are modelled
on `List Char`, staying with kernel-reducible structural recursion. -/

/-- Rust `str::split(c)`: split at every separator, keeping empty pieces
(so `"".split` is `[""]` and `"::".split(':')` is `["", "", ""]`). -/
def splitChar (sep : Char) : List Char → List (List Char)
  | [] => [[]]
  | c :: cs =>
    match splitChar sep cs with
    | r :: rs => if c = sep then [] :: r :: rs else (c :: r) :: rs
    | [] => [[c]]

/-- Value of a string of ASCII digits. -/
def digitsToNat (cs : List Char) : Nat :=
  cs.foldl (fun acc c => acc * 10 + (c.toNat - 48)) 0

/-- Rust `str::parse::<u32>`: an optional leading `+`, then one or more ASCII
digits, value within `u32` range; anything else is an error (`None`). -/
def parseU32 (cs : List Char) : Option Nat :=
  let cs' := match cs with
    | '+' :: rest => rest
    | other => other
  if cs' ≠ [] ∧ cs'.all (fun c => c.isDigit) then
    let n := digitsToNat cs'
    if n ≤ 4294967295 then some n else none
  else none

/-- A proleptic-Gregorian calendar date (model of chrono `NaiveDate`;
the dates this system parses always have non-negative years). -/
structure NDate where
  year : Nat
  month : Nat
  day : Nat
deriving DecidableEq

def isLeapYear (y : Nat) : Bool :=
  y % 4 = 0 && (y % 100 ≠ 0 || y % 400 = 0)

def daysInMonth (y m : Nat) : Nat :=
  if m = 2 then (if isLeapYear y then 29 else 28)
  else if m = 4 ∨ m = 6 ∨ m = 9 ∨ m = 11 then 30
  else 31

/-- `NaiveDate::parse_from_str(s, "%Y-%m-%d")`: a 1–4 digit year, 1–2 digit
month and day, the whole string consumed, and the triple a valid calendar
date.  (chrono would also accept signed years; Darwin `ssd` values are
always `YYYY-MM-DD`, so only non-negative years are modelled.) -/
def parseDateYMD (s : String) : Option NDate :=
  match splitChar '-' s.toList with
  | [ys, ms, ds] =>
    if ys ≠ [] ∧ ys.length ≤ 4 ∧ ys.all (fun c => c.isDigit) ∧
        1 ≤ ms.length ∧ ms.length ≤ 2 ∧ ms.all (fun c => c.isDigit) ∧
        1 ≤ ds.length ∧ ds.length ≤ 2 ∧ ds.all (fun c => c.isDigit) then
      let y := digitsToNat ys
      let m := digitsToNat ms
      let d := digitsToNat ds
      if 1 ≤ m ∧ m ≤ 12 ∧ 1 ≤ d ∧ d ≤ daysInMonth y m then
        some ⟨y, m, d⟩
      else none
    else none
  | _ => none

/-- Days since 1970-01-01 of a civil date (Howard Hinnant's `days_from_civil`
algorithm, the one underlying chrono's `timestamp`).  `Int.tdiv` is the
truncating division of the reference algorithm. -/
def daysFromCivil (dt : NDate) : Int :=
  let y : Int := if dt.month ≤ 2 then (dt.year : Int) - 1 else (dt.year : Int)
  let era : Int := Int.tdiv (if 0 ≤ y then y else y - 399) 400
  let yoe : Int := y - era * 400
  let mp : Nat := if 2 < dt.month then dt.month - 3 else dt.month + 9
  let doy : Int := ((153 * mp + 2) / 5 : Nat) + (dt.day : Int) - 1
  let doe : Int := yoe * 365 + Int.tdiv yoe 4 - Int.tdiv yoe 100 + doy
  era * 146097 + doe - 719468

/-- Epoch second of `dt` at `h:m:00`, interpreted as UTC
(`NaiveDate::and_hms_opt(h, m, 0).and_utc().timestamp()`). -/
def utcTimestamp (dt : NDate) (h m : Nat) : Int :=
  daysFromCivil dt * 86400 + (h : Int) * 3600 + (m : Int) * 60

/-! ### Darwin XML data model (src/darwin_types.rs), restricted to the fields
`update_trip` reads -/

/-- `Forecast` (`arr`/`dep`/`pass` elements): estimated and actual time.
`at` is a Lean keyword, hence the field name `at'`. -/
structure Forecast where
  et : Option String
  at' : Option String
deriving DecidableEq

/-- `Platform` (`plat` element). -/
structure Platform where
  number : Option String
  cis_suppressed : Option Bool
  platsup : Option Bool
  conf : Option Bool
  platsrc : Option String
deriving DecidableEq

/-- `Location` element of a `TS`. -/
structure Location where
  tiploc : Option String
  platform : Option Platform
  suppr : Option Bool
  arr : Option Forecast
  dep : Option Forecast
  pass : Option Forecast
deriving DecidableEq

/-- `TrainStatus` (`TS`). -/
structure TrainStatus where
  rid : String
  uid : String
  ssd : String
  locations : List Location
deriving DecidableEq

/-! ### GTFS-Realtime output model (the fields this program writes) -/
structure StopTimeEvent where
  time : Option Int
deriving DecidableEq

structure StopTimeUpdate where
  stop_sequence : Option Nat
  stop_id : Option String
  arrival : Option StopTimeEvent
  departure : Option StopTimeEvent
deriving DecidableEq

structure TripDescriptor where
  trip_id : Option String
  start_date : Option String
deriving DecidableEq

structure TripUpdate where
  trip : TripDescriptor
  stop_time_update : List StopTimeUpdate
deriving DecidableEq

/-- Vehicle positions are written by `update_trip_from_order` / formation
handling, which the claims do not touch; only their presence matters. -/
structure VehiclePosition where
  trip : Option TripDescriptor
  stop_id : Option String
  label : Option String
deriving DecidableEq

structure FeedEntity where
  id : String
  trip_update : Option TripUpdate
  vehicle : Option VehiclePosition
deriving DecidableEq

/-! ### Shared state (src/state.rs) -/
structure PlatformInfo where
  stop_id : String
  sequence : Nat
  platform : String
deriving DecidableEq

structure AppState where
  trip_updates : List (String × FeedEntity)
  platforms_v2 : List (String × List PlatformInfo)
  station_messages : List (String × String)
  rid_to_trip_id : List (String × String)
deriving DecidableEq

def emptyState : AppState :=
  { trip_updates := [], platforms_v2 := [], station_messages := [], rid_to_trip_id := [] }

/-- The static GTFS index (src/static_data.rs) as a record of its pure
lookup operations: `find_trip_id`, `get_stop_id`, `get_trip_stops`,
`get_trip_start_time`. -/
structure GtfsIndex where
  find_trip_id : String → NDate → Option String
  get_stop_id : String → Option String
  get_trip_stops : String → Option (List (String × Nat))
  get_trip_start_time : String → Option Nat

/-! ### Time parsing (src/processor.rs, `parse_time`) -/

/-- Body of `parse_time` once the time string has been chosen:
split on `:`, require exactly two parts, parse both as `u32`, parse `ssd`
as `%Y-%m-%d`, build the naive datetime at `HH:MM:00` (invalid for hour ≥ 24
or minute ≥ 60) and emit its UTC epoch second. -/
def parseTimeStr (timeStr ssd : String) : Option StopTimeEvent :=
  match splitChar ':' timeStr.toList with
  | [hs, ms] =>
    match parseU32 hs, parseU32 ms, parseDateYMD ssd with
    | some hour, some minute, some date =>
      if hour ≤ 23 ∧ minute ≤ 59 then
        some { time := some (utcTimestamp date hour minute) }
      else none
    | _, _, _ => none
  | _ => none

/-- `parse_time(f, ssd)`: prefer `at` over `et`, then parse the time string
against the schedule start date. -/
def parse_time (f : Forecast) (ssd : String) : Option StopTimeEvent :=
  match f.at' with
  | some t => parseTimeStr t ssd
  | none =>
    match f.et with
    | some t => parseTimeStr t ssd
    | none => none

/-! ### `update_trip` helpers (src/processor.rs) -/
def check_forecast : Option Forecast → Bool
  | some f => f.et.isSome || f.at'.isSome
  | none => false

def has_time_data (loc : Location) : Bool :=
  check_forecast loc.arr || check_forecast loc.dep || check_forecast loc.pass

/-- `build_stop_time_update`: `arrival` from `arr`, `departure` from `dep`
(`pass` contributes nothing). -/
def build_stop_time_update (loc : Location) (stop_id : String) (ssd : String)
    (seq : Option Nat) : StopTimeUpdate :=
  { stop_sequence := seq
    stop_id := some stop_id
    arrival := match loc.arr with
      | some a => parse_time a ssd
      | none => none
    departure := match loc.dep with
      | some d => parse_time d ssd
      | none => none }

/-- The forward scan `for i in current_static_idx..trip_stops.len()`:
`i` is the absolute index, carried alongside the remaining suffix.  On a hit
returns the matched `stop_sequence` and the cursor advanced past the entry. -/
def scanStops (sid : String) : List (String × Nat) → Nat → Option (Nat × Nat)
  | [], _ => none
  | (s, q) :: rest, i => if s = sid then some (q, i + 1) else scanStops sid rest (i + 1)

/-- Forward greedy sequence match starting at `idx` (lines 158–167 of
src/processor.rs). -/
def findSeq (stops : List (String × Nat)) (idx : Nat) (sid : String) : Option (Nat × Nat) :=
  scanStops sid (stops.drop idx) idx

/-- Sequence resolution for one location: the found sequence (if any) and the
new cursor (unchanged when nothing at or after the cursor matches). -/
def stepSeq (stops : List (String × Nat)) (cursor : Nat) : Option String → Option Nat × Nat
  | none => (none, cursor)
  | some sid =>
    match findSeq stops cursor sid with
    | some (q, c') => (some q, c')
    | none => (none, cursor)

/-- The stop id each location resolves to: `loc.tiploc` mapped through
`get_stop_id`. -/
def locStopIds (gtfs : GtfsIndex) (locs : List Location) : List (Option String) :=
  locs.map (fun loc => loc.tiploc.bind gtfs.get_stop_id)

/-- The sequence assigned to each location in document order by the forward
greedy scan (the cursor logic of `update_trip`, lines 151–168). -/
def assignSeqs (stops : List (String × Nat)) (idx : Nat) :
    List (Option String) → List (Option Nat)
  | [] => []
  | so :: rest =>
    let r := stepSeq stops idx so
    r.1 :: assignSeqs stops r.2 rest

/-- Replace the first stop-time update with sequence `q` (`position` +
assignment), else push. -/
def upsertStuBySeq (q : Nat) (stu : StopTimeUpdate) (l : List StopTimeUpdate) :
    List StopTimeUpdate :=
  upsertBy (fun u => u.stop_sequence = some q) stu l

/-- Fallback: replace the first stop-time update with stop id `sid`, else push. -/
def upsertStuByStop (sid : String) (stu : StopTimeUpdate) (l : List StopTimeUpdate) :
    List StopTimeUpdate :=
  upsertBy (fun u => u.stop_id = some sid) stu l

/-- `HashMap::insert` on the per-frame `platform_v2_updates` map
(`seq → (stop_id, platform)`): overwrite the key in place, else append. -/
def hmInsert (seq : Nat) (v : String × String) :
    List (Nat × String × String) → List (Nat × String × String)
  | [] => [(seq, v)]
  | (q, w) :: rest => if q = seq then (seq, v) :: rest else (q, w) :: hmInsert seq v rest

/-- Accumulator of the location loop: the static cursor, the trip's stop-time
updates, and the per-frame platform-v2 updates. -/
structure LocAcc where
  cursor : Nat
  stus : List StopTimeUpdate
  platV2 : List (Nat × String × String)
deriving DecidableEq

/-- One iteration of the location loop of `update_trip`
(src/processor.rs lines 151–222). -/
def processLoc (gtfs : GtfsIndex) (stops : List (String × Nat)) (ssd : String)
    (acc : LocAcc) (loc : Location) : LocAcc :=
  match loc.tiploc.bind gtfs.get_stop_id with
  | none => acc
  | some stop_id =>
    let r := stepSeq stops acc.cursor (some stop_id)
    let found_seq := r.1
    let cursor' := r.2
    let platV2' :=
      match loc.platform with
      | some plat =>
        let is_suppressed := plat.platsup.getD false || loc.suppr.getD false
        if is_suppressed then acc.platV2
        else
          match plat.number with
          | some num =>
            match found_seq with
            | some seq => hmInsert seq (stop_id, num) acc.platV2
            | none => acc.platV2
          | none => acc.platV2
      | none => acc.platV2
    let stus' :=
      if has_time_data loc then
        let stu := build_stop_time_update loc stop_id ssd found_seq
        match found_seq with
        | some seq => upsertStuBySeq seq stu acc.stus
        | none => upsertStuByStop stop_id stu acc.stus
      else acc.stus
    { cursor := cursor', stus := stus', platV2 := platV2' }

def processLocs (gtfs : GtfsIndex) (stops : List (String × Nat)) (ssd : String)
    (acc : LocAcc) (locs : List Location) : LocAcc :=
  locs.foldl (processLoc gtfs stops ssd) acc

/-- Sort key of a stop-time update: `stop_sequence.unwrap_or(0)`. -/
def stuKey (u : StopTimeUpdate) : Nat :=
  u.stop_sequence.getD 0

/-- `platforms_entry` upsert: overwrite the entry with the same sequence
(platform and stop id fields), else push. -/
def upsertPlatform (pi : PlatformInfo) (l : List PlatformInfo) : List PlatformInfo :=
  upsertBy (fun p => p.sequence = pi.sequence) pi l

def applyPlatUpdates (updates : List (Nat × String × String)) (entry : List PlatformInfo) :
    List PlatformInfo :=
  updates.foldl (fun e u => upsertPlatform ⟨u.2.1, u.1, u.2.2⟩ e) entry

/-! ### `update_trip` itself -/

/-- Step 1 of `update_trip`: parse `ssd` (falling back to today's UTC date)
and look the trip up in the static index. -/
def resolveTripId (gtfs : GtfsIndex) (today : NDate) (ts : TrainStatus) : Option String :=
  gtfs.find_trip_id ts.uid ((parseDateYMD ts.ssd).getD today)

/-- The state immediately after `state.rid_to_trip_id.insert(...)`
(src/processor.rs line 96) — before the trip entity is created. -/
def ridInsertState (gtfs : GtfsIndex) (today : NDate) (ts : TrainStatus) (s : AppState) :
    Option AppState :=
  (resolveTripId gtfs today ts).map fun trip_id =>
    { s with rid_to_trip_id := mapInsert ts.rid trip_id s.rid_to_trip_id }

/-- The freshly created trip entity (the `or_insert_with` closure,
src/processor.rs lines 113–142).  `londonFmt date start_secs` stands for the
chrono Europe/London rendering of `date 00:00 + start_secs` as `YYYYMMDD`. -/
def newTripEntity (gtfs : GtfsIndex) (londonFmt : NDate → Nat → String)
    (date_parsed : NDate) (trip_id : String) : FeedEntity :=
  { id := trip_id
    trip_update := some
      { trip := { trip_id := some trip_id
                  start_date := some (londonFmt date_parsed
                    ((gtfs.get_trip_start_time trip_id).getD 0)) }
        stop_time_update := [] }
    vehicle := none }

/-- `trip_stops = state.gtfs.get_trip_stops(&trip_id).unwrap_or_default()`. -/
def tripStopsOf (gtfs : GtfsIndex) (trip_id : String) : List (String × Nat) :=
  (gtfs.get_trip_stops trip_id).getD []

/-- The entity obtained from `state.trip_updates.entry(trip_id).or_insert_with(...)`. -/
def entityOf (gtfs : GtfsIndex) (londonFmt : NDate → Nat → String) (date_parsed : NDate)
    (trip_id : String) (s : AppState) : FeedEntity :=
  match mapLookup trip_id s.trip_updates with
  | some e => e
  | none => newTripEntity gtfs londonFmt date_parsed trip_id

/-- Body of `update_trip` after the trip id has been resolved
(src/processor.rs lines 95–250).  Returns `none` exactly when the Rust code
would panic (`entity.trip_update.as_mut().unwrap()` on a pre-existing entity
that has no trip update). -/
def updateTripResolved (gtfs : GtfsIndex) (londonFmt : NDate → Nat → String)
    (date_parsed : NDate) (trip_id : String) (ts : TrainStatus) (s : AppState) :
    Option AppState :=
  let trip_stops := tripStopsOf gtfs trip_id
  let entity := entityOf gtfs londonFmt date_parsed trip_id s
  match entity.trip_update with
  | none => none
  | some tu =>
    let acc := processLocs gtfs trip_stops ts.ssd ⟨0, tu.stop_time_update, []⟩ ts.locations
    let tu' := { tu with stop_time_update := sortByKey stuKey acc.stus }
    let entity' := { entity with trip_update := some tu' }
    let tups := mapInsert trip_id entity' s.trip_updates
    let plats :=
      if acc.platV2 = [] then s.platforms_v2
      else
        let entry := (mapLookup trip_id s.platforms_v2).getD []
        let entry' := sortByKey (fun p => p.sequence) (applyPlatUpdates acc.platV2 entry)
        mapInsert trip_id entry' s.platforms_v2
    some { s with rid_to_trip_id := mapInsert ts.rid trip_id s.rid_to_trip_id
                  trip_updates := tups
                  platforms_v2 := plats }

/-- `update_trip` (src/processor.rs lines 82–250). -/
def updateTrip (gtfs : GtfsIndex) (today : NDate) (londonFmt : NDate → Nat → String)
    (ts : TrainStatus) (s : AppState) : Option AppState :=
  let date_parsed := (parseDateYMD ts.ssd).getD today
  match gtfs.find_trip_id ts.uid date_parsed with
  | none => some s
  | some trip_id => updateTripResolved gtfs londonFmt date_parsed trip_id ts s

/-! ### Garbage collector (src/gc.rs, `cleanup_old_trips`) -/

/-- Fold one optional stop-time event into the running maximum. -/
def accTime (acc : Option Int) : Option StopTimeEvent → Option Int
  | some ev =>
    match ev.time with
    | some t => some (match acc with
        | some m => max m t
        | none => t)
    | none => acc
  | none => acc

/-- `max_time`: the largest arrival/departure time of the entity's trip
update, `none` when the entity has no trip update or no times. -/
def entityMaxTime (e : FeedEntity) : Option Int :=
  match e.trip_update with
  | none => none
  | some tu =>
    tu.stop_time_update.foldl (fun acc stu => accTime (accTime acc stu.arrival) stu.departure) none

/-- The removal criterion: `last_activity + threshold_secs < now`. -/
def expired (now threshold : Int) (e : FeedEntity) : Bool :=
  match entityMaxTime e with
  | some t => decide (t + threshold < now)
  | none => false

/-- `cleanup_old_trips(state, threshold)` with `now = Utc::now().timestamp()`
made explicit. -/
def cleanup_old_trips (now threshold : Int) (s : AppState) : AppState :=
  let trips_to_remove := (s.trip_updates.filter (fun kv => expired now threshold kv.2)).map
    (fun kv => kv.1)
  if trips_to_remove = [] then s
  else
    { s with
      trip_updates := trips_to_remove.foldl (fun m k => mapRemove k m) s.trip_updates
      platforms_v2 := trips_to_remove.foldl (fun m k => mapRemove k m) s.platforms_v2
      rid_to_trip_id := s.rid_to_trip_id.filter
        (fun kv => ¬ trips_to_remove.contains kv.2) }

/-! ### Snapshot / restore (src/persistence.rs)

The protobuf and bincode encodings are external; the model captures what is
written: the feed header (version and timestamp), every `trip_updates`
entity, and the `platforms_v2` table.  Decoding is the identity on that
data, as the round-trip contract of prost/bincode provides. -/
structure SavedState where
  header_version : String
  header_timestamp : Int
  entity : List FeedEntity
  platforms : List (String × List PlatformInfo)
deriving DecidableEq

/-- `save_state`: dump all trip-update entities and the platforms table. -/
def save_state (now : Int) (s : AppState) : SavedState :=
  { header_version := "2.0"
    header_timestamp := now
    entity := s.trip_updates.map (fun kv => kv.2)
    platforms := s.platforms_v2 }

/-- `load_state`: re-insert every entity under its `entity.id` as the key,
then insert every platforms entry. -/
def load_state (sv : SavedState) (s : AppState) : AppState :=
  { s with
    trip_updates := sv.entity.foldl (fun m e => mapInsert e.id e m) s.trip_updates
    platforms_v2 := sv.platforms.foldl (fun m kv => mapInsert kv.1 kv.2 m) s.platforms_v2 }

/-- "No element satisfies `p`". -/
def NoneSat {α : Type} (p : α → Prop) (l : List α) : Prop := ∀ x ∈ l, ¬ p x

/-- The elements of `l` whose key is `k`, in order. -/
def filterKey {α : Type} (key : α → Nat) (k : Nat) (l : List α) : List α :=
  l.filter (fun a => decide (key a = k))

/-! ### Repeated upserts within one key class -/

/-- Apply a sequence of `upsertBy p` writes. -/
def apUP {α : Type} (p : α → Prop) [DecidablePred p] (m : List α) (vs : List α) : List α :=
  vs.foldl (fun m v => upsertBy p v m) m

/-! ### Sequences of keyed upserts across classes -/

/-- Apply a list of keyed upserts: the write `(q, v)` replaces the first
element of class `q` (as decided by `Pm q`), else appends. -/
def applyOps {α : Type} (Pm : Nat → α → Prop) [∀ q, DecidablePred (Pm q)]
    (ops : List (Nat × α)) (m : List α) : List α :=
  ops.foldl (fun m qv => upsertBy (Pm qv.1) qv.2 m) m

/-- The values of the ops aimed at class `k`, in order. -/
def opVals {α : Type} (k : Nat) (ops : List (Nat × α)) : List α :=
  (ops.filter (fun qv => decide (qv.1 = k))).map Prod.snd

/-! ### Decomposing the location loop -/

/-- The cursor after processing `locs` (depends only on the static stops and
the locations, not on the accumulated updates). -/
def cursorOf (g : GtfsIndex) (stops : List (String × Nat)) : Nat → List Location → Nat
  | c, [] => c
  | c, loc :: rest =>
    match loc.tiploc.bind g.get_stop_id with
    | none => cursorOf g stops c rest
    | some sid => cursorOf g stops (stepSeq stops c (some sid)).2 rest

/-- The stop-time upserts the loop performs, in order: `(found_seq, stop_id,
stop-time update)`. -/
def stuOpsOf (g : GtfsIndex) (stops : List (String × Nat)) (ssd : String) :
    Nat → List Location → List (Option Nat × String × StopTimeUpdate)
  | _, [] => []
  | c, loc :: rest =>
    match loc.tiploc.bind g.get_stop_id with
    | none => stuOpsOf g stops ssd c rest
    | some sid =>
      let r := stepSeq stops c (some sid)
      (if has_time_data loc then [(r.1, sid, build_stop_time_update loc sid ssd r.1)] else [])
        ++ stuOpsOf g stops ssd r.2 rest

/-- Replay one recorded stop-time upsert. -/
def applyStuOp (m : List StopTimeUpdate) (op : Option Nat × String × StopTimeUpdate) :
    List StopTimeUpdate :=
  match op.1 with
  | some q => upsertStuBySeq q op.2.2 m
  | none => upsertStuByStop op.2.1 op.2.2 m

/-- The per-frame platform-v2 updates the loop accumulates. -/
def platOf (g : GtfsIndex) (stops : List (String × Nat)) :
    Nat → List (Nat × String × String) → List Location → List (Nat × String × String)
  | _, P, [] => P
  | c, P, loc :: rest =>
    match loc.tiploc.bind g.get_stop_id with
    | none => platOf g stops c P rest
    | some sid =>
      let r := stepSeq stops c (some sid)
      let P' :=
        match loc.platform with
        | some plat =>
          if plat.platsup.getD false || loc.suppr.getD false then P
          else
            match plat.number with
            | some num =>
              match r.1 with
              | some seq => hmInsert seq (sid, num) P
              | none => P
            | none => P
        | none => P
      platOf g stops r.2 P' rest

/-! ### The no-fallback condition -/

/-- Every location that carries time data (and resolves to a stop) obtains a
sequence from the forward scan — i.e. the stop-id fallback upsert never
runs. -/
def noFallback (g : GtfsIndex) (stops : List (String × Nat)) : Nat → List Location → Bool
  | _, [] => true
  | c, loc :: rest =>
    match loc.tiploc.bind g.get_stop_id with
    | none => noFallback g stops c rest
    | some sid =>
      let r := stepSeq stops c (some sid)
      (r.1.isSome || !has_time_data loc) && noFallback g stops r.2 rest

/-! ### The stop-time-update invariant (sorted, unique present sequences) -/

/-- The present sequence numbers of a stop-time-update list, in order. -/
def stuSeqs (l : List StopTimeUpdate) : List Nat :=
  l.filterMap (fun u => u.stop_sequence)

/-- Invariant 1 of the spec: sorted by sequence (absent = 0), no two entries
with the same present sequence. -/
def stuInv (e : FeedEntity) : Prop :=
  match e.trip_update with
  | some tu => tu.stop_time_update.Pairwise (fun a b => stuKey a ≤ stuKey b) ∧
      (stuSeqs tu.stop_time_update).Nodup
  | none => True

/-- The "came from a non-suppressed location" predicate of C2. -/
def PlatformSourced (g : GtfsIndex) (locs : List Location) (sid num : String) : Prop :=
  ∃ loc ∈ locs, ∃ tpl plat,
    loc.tiploc = some tpl ∧ g.get_stop_id tpl = some sid ∧
    loc.platform = some plat ∧ plat.number = some num ∧
    (plat.platsup.getD false || loc.suppr.getD false) = false

/-- Overwrite the informational `cisPlatsup` and `conf` attributes of every
platform element of the message. -/
def flagLoc (c k : Option Bool) (loc : Location) : Location :=
  { loc with platform := Option.map (fun p => { p with cis_suppressed := c, conf := k }) loc.platform }

def setInfoFlags (c k : Option Bool) (ts : TrainStatus) : TrainStatus :=
  { ts with locations := ts.locations.map (flagLoc c k) }

/-! ### Concrete fixtures -/
def fmt0 : NDate → Nat → String := fun _ _ => "20240519"

def d0 : NDate := ⟨2024, 5, 19⟩

/-- A location with a single estimated arrival time. -/
def locArr (tpl t : String) : Location :=
  { tiploc := some tpl, platform := none, suppr := none
    arr := some { et := some t, at' := none }, dep := none, pass := none }

/-- Index for the C4 counterexample: the trip visits stop `XS` once. -/
def gCex : GtfsIndex :=
  { find_trip_id := fun u _ => if u = "U" then some "T" else none
    get_stop_id := fun t => if t = "X" then some "XS" else none
    get_trip_stops := fun t => if t = "T" then some [("XS", 5)] else none
    get_trip_start_time := fun _ => none }

/-- Two locations for stop `X`; the second one falls back to the stop-id
upsert because the static sequence has no second visit. -/
def tsCex : TrainStatus :=
  { rid := "R", uid := "U", ssd := "2024-05-19"
    locations := [locArr "X" "10:00", locArr "X" "10:40"] }

/-- Index for the witnesses: two distinct stops, both resolvable. -/
def gWit : GtfsIndex :=
  { find_trip_id := fun u _ => if u = "U" then some "T" else none
    get_stop_id := fun t =>
      if t = "X" then some "XS" else if t = "Y" then some "YS" else none
    get_trip_stops := fun t => if t = "T" then some [("XS", 3), ("YS", 7)] else none
    get_trip_start_time := fun _ => some 3600 }

def tsWit : TrainStatus :=
  { rid := "R", uid := "U", ssd := "2024-05-19"
    locations := [locArr "X" "10:00", locArr "Y" "10:40"] }

/-- Index for the C1 witness: a loop route visiting `XS` at sequences 3
and 11. -/
def gLoopW : GtfsIndex :=
  { find_trip_id := fun u _ => if u = "U" then some "T" else none
    get_stop_id := fun t =>
      if t = "X" then some "XS" else if t = "Y" then some "YS" else none
    get_trip_stops := fun t =>
      if t = "T" then some [("XS", 3), ("YS", 5), ("XS", 11)] else none
    get_trip_start_time := fun _ => none }

def tsLoopW : TrainStatus :=
  { rid := "R", uid := "U", ssd := "2024-05-19"
    locations := [locArr "X" "10:00", locArr "X" "10:40"] }

/-- A location carrying a platform number and an arrival estimate. -/
def tsPlat : TrainStatus :=
  { rid := "R", uid := "U", ssd := "2024-05-19"
    locations := [
      { tiploc := some "X"
        platform := some { number := some "2", cis_suppressed := none, platsup := none
                           conf := none, platsrc := none }
        suppr := none
        arr := some { et := some "09:30", at' := none }, dep := none, pass := none }] }

def s2w : AppState := (updateTrip gWit d0 fmt0 tsPlat emptyState).getD emptyState

def entry2w : List PlatformInfo := (mapLookup "T" s2w.platforms_v2).getD []

def pi2w : PlatformInfo := ⟨"XS", 3, "2"⟩

def s3w : AppState := (updateTrip gWit d0 fmt0 tsWit emptyState).getD emptyState

def e3w : FeedEntity := (mapLookup "T" s3w.trip_updates).getD ⟨"", none, none⟩

/-- The state right after the rid insertion of `update_trip` on `tsCex`
from the empty state: the mapping exists, the trip entity does not yet. -/
def s8 : AppState :=
  { trip_updates := [], platforms_v2 := [], station_messages := []
    rid_to_trip_id := [("R", "T")] }

def s8w : AppState := (updateTrip gWit d0 fmt0 tsWit emptyState).getD emptyState

def eOld6 : FeedEntity :=
  ⟨"old", some ⟨⟨some "old", none⟩, [⟨some 1, some "A", none, some ⟨some 1000⟩⟩]⟩, none⟩

def eNew6 : FeedEntity :=
  ⟨"new", some ⟨⟨some "new", none⟩, [⟨some 1, some "B", none, some ⟨some 10000⟩⟩]⟩, none⟩

def s6w : AppState :=
  { trip_updates := [("old", eOld6), ("new", eNew6)]
    platforms_v2 := [("old", [⟨"A", 1, "4"⟩])]
    station_messages := []
    rid_to_trip_id := [("r1", "old"), ("r2", "new")] }

def eVP : FeedEntity :=
  ⟨"T_VP", none, some ⟨some ⟨some "T", none⟩, some "XS", some "390001"⟩⟩

def s9w : AppState :=
  { trip_updates := [("T", eOld6), ("T_VP", eVP)]
    platforms_v2 := [("T", [⟨"XS", 3, "2"⟩])]
    station_messages := []
    rid_to_trip_id := [("r1", "T")] }

def s5w : AppState :=
  { trip_updates := [("T", ⟨"T", some ⟨⟨some "T", some "20240519"⟩,
      [⟨some 3, some "XS", some ⟨some 1716111000⟩, none⟩]⟩, none⟩), ("T_VP", eVP)]
    platforms_v2 := [("T", [⟨"XS", 3, "2"⟩])]
    station_messages := []
    rid_to_trip_id := [("R", "T")] }

/-! ### Lemmas about the association-list maps -/
theorem mapLookup_insert_self {β : Type} (k : String) (v : β) (m : List (String × β)) :
    mapLookup k (mapInsert k v m) = some v := by
  induction m with
  | nil => simp [mapInsert, mapLookup]
  | cons kv rest ih =>
    obtain ⟨k', v'⟩ := kv
    by_cases h : k' = k
    · simp [mapInsert, mapLookup, h]
    · simp [mapInsert, mapLookup, h, ih]

theorem mapLookup_insert_other {β : Type} (k k' : String) (v : β) (m : List (String × β))
    (h : k' ≠ k) : mapLookup k' (mapInsert k v m) = mapLookup k' m := by
  induction m with
  | nil => simp [mapInsert, mapLookup, Ne.symm h]
  | cons kv rest ih =>
    obtain ⟨k0, v0⟩ := kv
    by_cases h0 : k0 = k
    · subst h0
      simp [mapInsert, mapLookup, Ne.symm h]
    · by_cases h1 : k0 = k'
      · simp [mapInsert, mapLookup, h0, h1, h]
      · simp [mapInsert, mapLookup, h0, h1, ih]

theorem mapInsert_idem {β : Type} (k : String) (v : β) (m : List (String × β)) :
    mapInsert k v (mapInsert k v m) = mapInsert k v m := by
  induction m with
  | nil => simp [mapInsert]
  | cons kv rest ih =>
    obtain ⟨k', v'⟩ := kv
    by_cases h : k' = k
    · simp [mapInsert, h]
    · simp [mapInsert, h, ih]

theorem mapLookup_mem {β : Type} (k : String) (m : List (String × β)) (v : β)
    (h : mapLookup k m = some v) : (k, v) ∈ m := by
  induction m with
  | nil => simp [mapLookup] at h
  | cons kv rest ih =>
    obtain ⟨k', v'⟩ := kv
    by_cases h0 : k' = k
    · subst h0
      simp [mapLookup] at h
      simp [h]
    · simp [mapLookup, h0] at h
      exact List.mem_cons_of_mem _ (ih h)

theorem mem_mapInsert {β : Type} (k : String) (v : β) (m : List (String × β)) (x : String × β)
    (h : x ∈ mapInsert k v m) : x = (k, v) ∨ x ∈ m := by
  induction m with
  | nil => simpa [mapInsert] using h
  | cons kv rest ih =>
    obtain ⟨k', v'⟩ := kv
    by_cases h0 : k' = k
    · simp [mapInsert, h0] at h
      rcases h with h | h
      · exact Or.inl h
      · exact Or.inr (List.mem_cons_of_mem _ h)
    · simp [mapInsert, h0] at h
      rcases h with h | h
      · exact Or.inr (by simp [h])
      · rcases ih h with h | h
        · exact Or.inl h
        · exact Or.inr (List.mem_cons_of_mem _ h)

theorem mapInsert_of_not_mem {β : Type} (k : String) (v : β) (m : List (String × β))
    (h : k ∉ m.map Prod.fst) : mapInsert k v m = m ++ [(k, v)] := by
  induction m with
  | nil => simp [mapInsert]
  | cons kv rest ih =>
    obtain ⟨k', v'⟩ := kv
    have h1 : ¬ (k = k' ∨ k ∈ rest.map Prod.fst) := by simpa using h
    push_neg at h1
    have h2 : ¬ k' = k := fun hk => h1.1 hk.symm
    simp [mapInsert, h2, ih (by simpa using h1.2)]

/-! ### Lemmas about `upsertBy` -/
theorem mem_upsertBy {α : Type} (p : α → Prop) [DecidablePred p] (v : α) (l : List α)
    (x : α) (h : x ∈ upsertBy p v l) : x = v ∨ x ∈ l := by
  induction l with
  | nil => simpa [upsertBy] using h
  | cons u rest ih =>
    by_cases h0 : p u
    · simp [upsertBy, h0] at h
      rcases h with h | h
      · exact Or.inl h
      · exact Or.inr (List.mem_cons_of_mem _ h)
    · simp [upsertBy, h0] at h
      rcases h with h | h
      · exact Or.inr (by simp [h])
      · rcases ih h with h | h
        · exact Or.inl h
        · exact Or.inr (List.mem_cons_of_mem _ h)

theorem upsertBy_of_noneSat {α : Type} (p : α → Prop) [DecidablePred p] (v : α)
    (l : List α) (h : NoneSat p l) : upsertBy p v l = l ++ [v] := by
  induction l with
  | nil => simp [upsertBy]
  | cons u rest ih =>
    have hu : ¬ p u := h u (by simp)
    simp [upsertBy, hu, ih (fun x hx => h x (List.mem_cons_of_mem _ hx))]

theorem upsertBy_first {α : Type} (p : α → Prop) [DecidablePred p] (v : α)
    (pre : List α) (x : α) (post : List α) (hpre : NoneSat p pre) (hx : p x) :
    upsertBy p v (pre ++ x :: post) = pre ++ v :: post := by
  induction pre with
  | nil => simp [upsertBy, hx]
  | cons u rest ih =>
    have hu : ¬ p u := hpre u (by simp)
    simp [upsertBy, hu, ih (fun y hy => hpre y (List.mem_cons_of_mem _ hy))]

/-- Decompose a list at its first element satisfying `p`. -/
theorem firstSat_decomp {α : Type} (p : α → Prop) [DecidablePred p] (l : List α) :
    NoneSat p l ∨ ∃ pre x post, l = pre ++ x :: post ∧ NoneSat p pre ∧ p x := by
  induction l with
  | nil => exact Or.inl (fun x hx => absurd hx (List.not_mem_nil x))
  | cons u rest ih =>
    by_cases hu : p u
    · exact Or.inr ⟨[], u, rest, by simp, fun x hx => absurd hx (List.not_mem_nil x), hu⟩
    · rcases ih with h | ⟨pre, x, post, hEq, hpre, hx⟩
      · refine Or.inl (fun x hx => ?_)
        rcases List.mem_cons.1 hx with h0 | h0
        · exact h0 ▸ hu
        · exact h x h0
      · refine Or.inr ⟨u :: pre, x, post, by simp [hEq], fun y hy => ?_, hx⟩
        rcases List.mem_cons.1 hy with h0 | h0
        · exact h0 ▸ hu
        · exact hpre y h0

/-! ### Lemmas about the stable sort -/
theorem orderedInsertK_perm {α : Type} (key : α → Nat) (a : α) (l : List α) :
    (orderedInsertK key a l).Perm (a :: l) := by
  induction l with
  | nil => simp [orderedInsertK]
  | cons b rest ih =>
    by_cases h : key a ≤ key b
    · simp [orderedInsertK, h]
    · simp only [orderedInsertK, if_neg h]
      exact ((ih.cons b).trans (List.Perm.swap a b rest))

theorem sortByKey_perm {α : Type} (key : α → Nat) (l : List α) :
    (sortByKey key l).Perm l := by
  induction l with
  | nil => simp [sortByKey]
  | cons a rest ih =>
    exact (orderedInsertK_perm key a (sortByKey key rest)).trans (ih.cons a)

theorem mem_sortByKey {α : Type} (key : α → Nat) (l : List α) (x : α) :
    x ∈ sortByKey key l ↔ x ∈ l :=
  (sortByKey_perm key l).mem_iff

theorem sorted_orderedInsertK {α : Type} (key : α → Nat) (a : α) (l : List α)
    (h : l.Pairwise (fun x y => key x ≤ key y)) :
    (orderedInsertK key a l).Pairwise (fun x y => key x ≤ key y) := by
  induction l with
  | nil => simp [orderedInsertK]
  | cons b rest ih =>
    rcases List.pairwise_cons.1 h with ⟨hb, hrest⟩
    by_cases hab : key a ≤ key b
    · rw [orderedInsertK, if_pos hab]
      refine List.pairwise_cons.2 ⟨?_, h⟩
      intro y hy
      rcases List.mem_cons.1 hy with hy | hy
      · exact hy ▸ hab
      · exact le_trans hab (hb y hy)
    · rw [orderedInsertK, if_neg hab]
      refine List.pairwise_cons.2 ⟨?_, ih hrest⟩
      intro y hy
      rcases List.mem_cons.1 ((orderedInsertK_perm key a rest).mem_iff.1 hy) with hy | hy
      · exact hy ▸ le_of_not_le hab
      · exact hb y hy

theorem sortByKey_sorted {α : Type} (key : α → Nat) (l : List α) :
    (sortByKey key l).Pairwise (fun x y => key x ≤ key y) := by
  induction l with
  | nil => simp [sortByKey]
  | cons a rest ih => exact sorted_orderedInsertK key a _ ih

theorem filterKey_nil {α : Type} (key : α → Nat) (k : Nat) :
    filterKey key k ([] : List α) = [] := rfl

theorem filterKey_cons {α : Type} (key : α → Nat) (k : Nat) (a : α) (l : List α) :
    filterKey key k (a :: l) =
      if key a = k then a :: filterKey key k l else filterKey key k l := by
  by_cases h : key a = k
  · simp [filterKey, List.filter_cons, h]
  · simp [filterKey, List.filter_cons, h]

theorem filterKey_orderedInsertK {α : Type} (key : α → Nat) (k : Nat) (a : α) (l : List α) :
    filterKey key k (orderedInsertK key a l) =
      if key a = k then a :: filterKey key k l else filterKey key k l := by
  induction l with
  | nil => simp [orderedInsertK, filterKey_cons, filterKey_nil]
  | cons b rest ih =>
    by_cases hab : key a ≤ key b
    · rw [orderedInsertK, if_pos hab, filterKey_cons]
    · rw [orderedInsertK, if_neg hab, filterKey_cons, ih, filterKey_cons]
      by_cases hb : key b = k
      · have ha : ¬ key a = k := fun ha => hab (le_of_eq (ha.trans hb.symm))
        rw [if_pos hb, if_neg ha, if_neg ha, if_pos hb]
      · rw [if_neg hb, if_neg hb]

theorem filterKey_sortByKey {α : Type} (key : α → Nat) (k : Nat) (l : List α) :
    filterKey key k (sortByKey key l) = filterKey key k l := by
  induction l with
  | nil => rfl
  | cons a rest ih =>
    rw [sortByKey, filterKey_orderedInsertK, ih, filterKey_cons]

theorem sortByKey_of_sorted {α : Type} (key : α → Nat) (l : List α)
    (h : l.Pairwise (fun x y => key x ≤ key y)) : sortByKey key l = l := by
  induction l with
  | nil => rfl
  | cons a rest ih =>
    rcases List.pairwise_cons.1 h with ⟨ha, hrest⟩
    rw [sortByKey, ih hrest]
    cases rest with
    | nil => rfl
    | cons b rest' => rw [orderedInsertK, if_pos (ha b (by simp))]

theorem filterKey_eq_nil {α : Type} (key : α → Nat) (k : Nat) (l : List α)
    (h : ∀ x ∈ l, key x ≠ k) : filterKey key k l = [] := by
  induction l with
  | nil => rfl
  | cons a rest ih =>
    rw [filterKey_cons, if_neg (h a (by simp))]
    exact ih (fun x hx => h x (List.mem_cons_of_mem _ hx))

/-- Two lists sorted by the same key and with the same per-key slices are
equal. -/
theorem sorted_ext {α : Type} (key : α → Nat) (l₁ : List α) :
    ∀ l₂ : List α, l₁.Pairwise (fun x y => key x ≤ key y) →
    l₂.Pairwise (fun x y => key x ≤ key y) →
    (∀ k, filterKey key k l₁ = filterKey key k l₂) → l₁ = l₂ := by
  induction l₁ with
  | nil =>
    intro l₂ _ _ h
    cases l₂ with
    | nil => rfl
    | cons b l₂' =>
      have hb := h (key b)
      rw [filterKey_nil, filterKey_cons, if_pos rfl] at hb
      exact absurd hb.symm (List.cons_ne_nil _ _)
  | cons a l₁' ih =>
    intro l₂ h₁ h₂ h
    cases l₂ with
    | nil =>
      have ha := h (key a)
      rw [filterKey_nil, filterKey_cons, if_pos rfl] at ha
      exact absurd ha (List.cons_ne_nil _ _)
    | cons b l₂' =>
      rcases List.pairwise_cons.1 h₁ with ⟨ha1, h₁'⟩
      rcases List.pairwise_cons.1 h₂ with ⟨hb2, h₂'⟩
      -- the head of a sorted list is the head of its own key slice;
      -- both slices agree, so the smaller head key must occur in the other list
      have hslice_a := h (key a)
      rw [filterKey_cons, if_pos rfl] at hslice_a
      have hkey : key a = key b := by
        rcases Nat.lt_trichotomy (key a) (key b) with hlt | heq | hgt
        · -- key a < key b: slice of key a in b :: l₂' is empty
          have hempty : filterKey key (key a) (b :: l₂') = [] := by
            rw [filterKey_cons, if_neg (fun hk : key b = key a => absurd (hk ▸ hlt) (lt_irrefl _))]
            refine filterKey_eq_nil key (key a) l₂' (fun x hx hxk => ?_)
            exact absurd (lt_of_lt_of_le hlt (hxk ▸ hb2 x hx)) (lt_irrefl _)
          rw [hempty] at hslice_a
          exact absurd hslice_a (List.cons_ne_nil _ _)
        · exact heq
        · -- key b < key a: symmetric
          have hslice_b := h (key b)
          rw [filterKey_cons key (key b) b l₂', if_pos rfl] at hslice_b
          have hempty : filterKey key (key b) (a :: l₁') = [] := by
            rw [filterKey_cons, if_neg (fun hk : key a = key b => absurd (hk ▸ hgt) (lt_irrefl _))]
            refine filterKey_eq_nil key (key b) l₁' (fun x hx hxk => ?_)
            exact absurd (lt_of_lt_of_le hgt (hxk ▸ ha1 x hx)) (lt_irrefl _)
          rw [hempty] at hslice_b
          exact absurd hslice_b.symm (List.cons_ne_nil _ _)
      -- equal head keys: compare the shared slice
      have hslice := h (key a)
      rw [filterKey_cons, if_pos rfl, filterKey_cons, if_pos hkey.symm] at hslice
      have hab : a = b := (List.cons.injEq _ _ _ _ ▸ hslice).1
      subst hab
      refine congrArg (a :: ·) (ih l₂' h₁' h₂' (fun k => ?_))
      have hk := h k
      rw [filterKey_cons, filterKey_cons] at hk
      by_cases hka : key a = k
      · rw [if_pos hka, if_pos hka] at hk
        exact (List.cons.injEq _ _ _ _ ▸ hk).2
      · rwa [if_neg hka, if_neg hka] at hk

theorem getLastD_of_ne_nil {α : Type} (l : List α) (d d' : α) (h : l ≠ []) :
    l.getLastD d = l.getLastD d' := by
  cases l with
  | nil => exact absurd rfl h
  | cons a rest => rw [List.getLastD_cons, List.getLastD_cons]

theorem getLastD_mem {α : Type} (l : List α) (d : α) (h : l ≠ []) : l.getLastD d ∈ l := by
  induction l generalizing d with
  | nil => exact absurd rfl h
  | cons a rest ih =>
    rw [List.getLastD_cons]
    cases rest with
    | nil => simp
    | cons b rest' => exact List.mem_cons_of_mem _ (ih a (List.cons_ne_nil _ _))

theorem apUP_first {α : Type} (p : α → Prop) [DecidablePred p] (vs : List α)
    (hvs : ∀ v ∈ vs, p v) :
    ∀ (pre : List α) (x : α) (post : List α), NoneSat p pre → p x →
    apUP p (pre ++ x :: post) vs = pre ++ vs.getLastD x :: post := by
  induction vs with
  | nil => intro pre x post _ _; rfl
  | cons v vs' ih =>
    intro pre x post hpre hx
    have h1 : apUP p (pre ++ x :: post) (v :: vs') = apUP p (pre ++ v :: post) vs' := by
      simp only [apUP, List.foldl_cons]
      rw [upsertBy_first p v pre x post hpre hx]
    rw [h1, ih (fun w hw => hvs w (List.mem_cons_of_mem _ hw)) pre v post hpre
      (hvs v (by simp)), List.getLastD_cons]

theorem apUP_noneSat {α : Type} (p : α → Prop) [DecidablePred p] (v : α) (vs : List α)
    (hvs : ∀ w ∈ v :: vs, p w) (m : List α) (hm : NoneSat p m) :
    apUP p m (v :: vs) = m ++ [vs.getLastD v] := by
  have h1 : apUP p m (v :: vs) = apUP p (m ++ [v]) vs := by
    simp only [apUP, List.foldl_cons]
    rw [upsertBy_of_noneSat p v m hm]
  rw [h1]
  have := apUP_first p vs (fun w hw => hvs w (List.mem_cons_of_mem _ hw)) m v [] hm
    (hvs v (by simp))
  simpa using this

/-- Re-running the same sequence of single-class upserts is a no-op. -/
theorem apUP_idem {α : Type} (p : α → Prop) [DecidablePred p] (vs : List α)
    (hvs : ∀ v ∈ vs, p v) (m : List α) :
    apUP p (apUP p m vs) vs = apUP p m vs := by
  cases vs with
  | nil => rfl
  | cons v vs' =>
    have hlast : p (vs'.getLastD v) := by
      have : (v :: vs').getLastD v ∈ v :: vs' := getLastD_mem (v :: vs') v (by simp)
      rw [List.getLastD_cons] at this
      exact hvs _ this
    rcases firstSat_decomp p m with hnone | ⟨pre, x, post, hEq, hpre, hx⟩
    · rw [apUP_noneSat p v vs' hvs m hnone]
      have h2 := apUP_first p (v :: vs') hvs m (vs'.getLastD v) [] hnone hlast
      rw [List.getLastD_cons] at h2
      simpa using h2
    · subst hEq
      have h1 := apUP_first p (v :: vs') hvs pre x post hpre hx
      rw [List.getLastD_cons] at h1
      have h2 := apUP_first p (v :: vs') hvs pre (vs'.getLastD v) post hpre hlast
      rw [List.getLastD_cons] at h2
      rw [h1, h2]

theorem opVals_cons {α : Type} (k q : Nat) (v : α) (ops : List (Nat × α)) :
    opVals k ((q, v) :: ops) = if q = k then v :: opVals k ops else opVals k ops := by
  by_cases h : q = k
  · simp [opVals, List.filter_cons, h]
  · simp [opVals, List.filter_cons, h]

theorem filterKey_upsertBy {α : Type} (key : α → Nat) (Pm : Nat → α → Prop)
    [∀ q, DecidablePred (Pm q)] (hPmKey : ∀ q x, Pm q x → key x = q)
    (q : Nat) (v : α) (hv : Pm q v) (k : Nat) (l : List α) :
    filterKey key k (upsertBy (Pm q) v l) =
      if q = k then upsertBy (Pm k) v (filterKey key k l) else filterKey key k l := by
  have hkv : key v = q := hPmKey q v hv
  induction l with
  | nil =>
    by_cases h : q = k
    · subst h
      simp [upsertBy, filterKey_cons, filterKey_nil, hkv]
    · simp [upsertBy, filterKey_cons, filterKey_nil, hkv, h]
  | cons u l' ih =>
    by_cases hpu : Pm q u
    · have hku : key u = q := hPmKey q u hpu
      rw [upsertBy, if_pos hpu]
      by_cases h : q = k
      · subst h
        rw [if_pos rfl, filterKey_cons, if_pos hkv, filterKey_cons, if_pos hku,
          upsertBy, if_pos hpu]
      · rw [if_neg h, filterKey_cons, if_neg (hkv ▸ h), filterKey_cons, if_neg (hku ▸ h)]
    · rw [upsertBy, if_neg hpu]
      by_cases h : q = k
      · subst h
        rw [if_pos rfl] at ih ⊢
        by_cases hku : key u = q
        · rw [filterKey_cons, if_pos hku, filterKey_cons, if_pos hku, ih,
            upsertBy, if_neg hpu]
        · rw [filterKey_cons, if_neg hku, filterKey_cons, if_neg hku, ih]
      · rw [if_neg h] at ih ⊢
        by_cases hku : key u = k
        · rw [filterKey_cons, if_pos hku, filterKey_cons, if_pos hku, ih]
        · rw [filterKey_cons, if_neg hku, filterKey_cons, if_neg hku, ih]

theorem filterKey_applyOps {α : Type} (key : α → Nat) (Pm : Nat → α → Prop)
    [∀ q, DecidablePred (Pm q)] (hPmKey : ∀ q x, Pm q x → key x = q)
    (ops : List (Nat × α)) (hops : ∀ qv ∈ ops, Pm qv.1 qv.2) :
    ∀ (m : List α) (k : Nat),
    filterKey key k (applyOps Pm ops m) = apUP (Pm k) (filterKey key k m) (opVals k ops) := by
  induction ops with
  | nil => intro m k; rfl
  | cons qv ops' ih =>
    intro m k
    obtain ⟨q, v⟩ := qv
    have hv : Pm q v := hops (q, v) (by simp)
    have hops' : ∀ qv ∈ ops', Pm qv.1 qv.2 := fun qv hqv => hops qv (List.mem_cons_of_mem _ hqv)
    have h1 : applyOps Pm ((q, v) :: ops') m = applyOps Pm ops' (upsertBy (Pm q) v m) := rfl
    rw [h1, ih hops' (upsertBy (Pm q) v m) k,
      filterKey_upsertBy key Pm hPmKey q v hv k m, opVals_cons]
    by_cases h : q = k
    · rw [if_pos h, if_pos h]
      rfl
    · rw [if_neg h, if_neg h]

theorem opVals_class {α : Type} (Pm : Nat → α → Prop) (k : Nat) (ops : List (Nat × α))
    (hops : ∀ qv ∈ ops, Pm qv.1 qv.2) : ∀ v ∈ opVals k ops, Pm k v := by
  intro v hv
  simp only [opVals, List.mem_map] at hv
  obtain ⟨qv, hqv, rfl⟩ := hv
  rcases List.mem_filter.1 hqv with ⟨hmem, hk⟩
  have : qv.1 = k := by simpa using hk
  exact this ▸ hops qv hmem

/-- The master idempotence lemma: re-applying the same keyed upserts to the
sorted result, and sorting again, changes nothing. -/
theorem applyOps_sort_idem {α : Type} (key : α → Nat) (Pm : Nat → α → Prop)
    [∀ q, DecidablePred (Pm q)] (hPmKey : ∀ q x, Pm q x → key x = q)
    (ops : List (Nat × α)) (hops : ∀ qv ∈ ops, Pm qv.1 qv.2) (m : List α) :
    sortByKey key (applyOps Pm ops (sortByKey key (applyOps Pm ops m))) =
      sortByKey key (applyOps Pm ops m) := by
  refine sorted_ext key _ _ (sortByKey_sorted key _) (sortByKey_sorted key _) (fun k => ?_)
  rw [filterKey_sortByKey, filterKey_sortByKey,
    filterKey_applyOps key Pm hPmKey ops hops _ k, filterKey_sortByKey,
    filterKey_applyOps key Pm hPmKey ops hops m k]
  exact apUP_idem (Pm k) (opVals k ops) (opVals_class Pm k ops hops) (filterKey key k m)

theorem processLocs_decomp (g : GtfsIndex) (stops : List (String × Nat)) (ssd : String) :
    ∀ (locs : List Location) (c : Nat) (L : List StopTimeUpdate)
      (P : List (Nat × String × String)),
    processLocs g stops ssd ⟨c, L, P⟩ locs =
      ⟨cursorOf g stops c locs,
       (stuOpsOf g stops ssd c locs).foldl applyStuOp L,
       platOf g stops c P locs⟩ := by
  intro locs
  induction locs with
  | nil => intro c L P; rfl
  | cons loc rest ih =>
    intro c L P
    have hstep : processLocs g stops ssd ⟨c, L, P⟩ (loc :: rest) =
        processLocs g stops ssd (processLoc g stops ssd ⟨c, L, P⟩ loc) rest := rfl
    rw [hstep]
    cases htl : loc.tiploc.bind g.get_stop_id with
    | none =>
      have h1 : processLoc g stops ssd ⟨c, L, P⟩ loc = ⟨c, L, P⟩ := by
        simp [processLoc, htl]
      rw [h1, ih]
      simp [cursorOf, stuOpsOf, platOf, htl]
    | some sid =>
      have h1 : processLoc g stops ssd ⟨c, L, P⟩ loc =
          ⟨(stepSeq stops c (some sid)).2,
           (if has_time_data loc
             then [((stepSeq stops c (some sid)).1, sid,
                    build_stop_time_update loc sid ssd (stepSeq stops c (some sid)).1)]
             else []).foldl applyStuOp L,
           match loc.platform with
           | some plat =>
             if plat.platsup.getD false || loc.suppr.getD false then P
             else
               match plat.number with
               | some num =>
                 match (stepSeq stops c (some sid)).1 with
                 | some seq => hmInsert seq (sid, num) P
                 | none => P
               | none => P
           | none => P⟩ := by
        by_cases htd : has_time_data loc
        · cases hfs : (stepSeq stops c (some sid)).1 with
          | none => simp [processLoc, htl, htd, hfs, applyStuOp]
          | some q => simp [processLoc, htl, htd, hfs, applyStuOp]
        · simp [processLoc, htl, htd]
      rw [h1, ih]
      have h2 : cursorOf g stops c (loc :: rest) =
          cursorOf g stops (stepSeq stops c (some sid)).2 rest := by
        simp [cursorOf, htl]
      have h3 : stuOpsOf g stops ssd c (loc :: rest) =
          (if has_time_data loc
            then [((stepSeq stops c (some sid)).1, sid,
                   build_stop_time_update loc sid ssd (stepSeq stops c (some sid)).1)]
            else []) ++ stuOpsOf g stops ssd (stepSeq stops c (some sid)).2 rest := by
        simp [stuOpsOf, htl]
      have h4 : platOf g stops c P (loc :: rest) =
          platOf g stops (stepSeq stops c (some sid)).2
            (match loc.platform with
             | some plat =>
               if plat.platsup.getD false || loc.suppr.getD false then P
               else
                 match plat.number with
                 | some num =>
                   match (stepSeq stops c (some sid)).1 with
                   | some seq => hmInsert seq (sid, num) P
                   | none => P
                 | none => P
             | none => P) rest := by
        simp [platOf, htl]
      rw [h2, h3, h4, List.foldl_append]

theorem noFallback_ops (g : GtfsIndex) (stops : List (String × Nat)) (ssd : String) :
    ∀ (locs : List Location) (c : Nat), noFallback g stops c locs = true →
    ∀ op ∈ stuOpsOf g stops ssd c locs,
      ∃ q, op.1 = some q ∧ (op.2.2).stop_sequence = some q := by
  intro locs
  induction locs with
  | nil => intro c _ op hop; simp [stuOpsOf] at hop
  | cons loc rest ih =>
    intro c hnf op hop
    cases htl : loc.tiploc.bind g.get_stop_id with
    | none =>
      rw [noFallback, htl] at hnf
      rw [stuOpsOf, htl] at hop
      exact ih c hnf op hop
    | some sid =>
      rw [noFallback, htl, Bool.and_eq_true] at hnf
      rw [stuOpsOf, htl] at hop
      rcases List.mem_append.1 hop with hop | hop
      · by_cases htd : has_time_data loc
        · rw [if_pos htd] at hop
          rcases List.mem_singleton.1 hop with rfl
          have hor := hnf.1
          rw [Bool.or_eq_true] at hor
          rcases hor with hs | hs
          · rcases Option.isSome_iff_exists.1 hs with ⟨q, hq⟩
            exact ⟨q, hq, by simp [build_stop_time_update, hq]⟩
          · rw [htd] at hs
            simp at hs
        · rw [if_neg htd] at hop
          simp at hop
      · exact ih _ hnf.2 op hop

theorem upsertBy_congr {α : Type} (p p' : α → Prop) [DecidablePred p] [DecidablePred p']
    (h : ∀ a, p a ↔ p' a) (v : α) (l : List α) : upsertBy p v l = upsertBy p' v l := by
  induction l with
  | nil => rfl
  | cons u rest ih =>
    by_cases hu : p u
    · rw [upsertBy, if_pos hu, upsertBy, if_pos ((h u).1 hu)]
    · rw [upsertBy, if_neg hu, upsertBy, if_neg (fun hu' => hu ((h u).2 hu')), ih]

/-- When no fallback upsert occurs, replaying the recorded stop-time ops is a
sequence of keyed upserts on `stop_sequence`. -/
theorem stuOps_as_applyOps (ops : List (Option Nat × String × StopTimeUpdate))
    (h : ∀ op ∈ ops, ∃ q, op.1 = some q ∧ (op.2.2).stop_sequence = some q) :
    ∀ L, ops.foldl applyStuOp L =
      applyOps (fun q u => u.stop_sequence = some q)
        (ops.map (fun op => (op.1.getD 0, op.2.2))) L := by
  induction ops with
  | nil => intro L; rfl
  | cons op ops' ih =>
    intro L
    obtain ⟨q, hq, _⟩ := h op (by simp)
    have h' : ∀ op ∈ ops', ∃ q, op.1 = some q ∧ (op.2.2).stop_sequence = some q :=
      fun op hop => h op (List.mem_cons_of_mem _ hop)
    have h1 : applyStuOp L op = upsertBy (fun u => u.stop_sequence = some q) op.2.2 L := by
      rw [applyStuOp, hq]
      rfl
    have h2 : (op.1.getD 0) = q := by rw [hq]; rfl
    calc (op :: ops').foldl applyStuOp L = ops'.foldl applyStuOp (applyStuOp L op) := rfl
      _ = applyOps (fun q u => u.stop_sequence = some q)
            (ops'.map (fun op => (op.1.getD 0, op.2.2))) (applyStuOp L op) := ih h' _
      _ = applyOps (fun q u => u.stop_sequence = some q)
            ((op :: ops').map (fun op => (op.1.getD 0, op.2.2))) L := by
            rw [List.map_cons]
            have h3 : applyOps (fun q u => u.stop_sequence = some q)
                ((op.1.getD 0, op.2.2) :: ops'.map (fun op => (op.1.getD 0, op.2.2))) L =
                applyOps (fun q u => u.stop_sequence = some q)
                  (ops'.map (fun op => (op.1.getD 0, op.2.2)))
                  (upsertBy (fun u => u.stop_sequence = some (op.1.getD 0)) op.2.2 L) := rfl
            rw [h3, h2, ← h1]

/-- `applyPlatUpdates` is a sequence of keyed upserts on `sequence`. -/
theorem applyPlatUpdates_as_applyOps (U : List (Nat × String × String)) :
    ∀ e, applyPlatUpdates U e =
      applyOps (fun q p => p.sequence = q)
        (U.map (fun u => (u.1, (⟨u.2.1, u.1, u.2.2⟩ : PlatformInfo)))) e := by
  induction U with
  | nil => intro e; rfl
  | cons u U' ih =>
    intro e
    calc applyPlatUpdates (u :: U') e = applyPlatUpdates U' (upsertPlatform ⟨u.2.1, u.1, u.2.2⟩ e) := rfl
      _ = applyOps (fun q p => p.sequence = q)
            (U'.map (fun u => (u.1, (⟨u.2.1, u.1, u.2.2⟩ : PlatformInfo))))
            (upsertPlatform ⟨u.2.1, u.1, u.2.2⟩ e) := ih _
      _ = _ := by
            rw [List.map_cons]
            rfl

/-- Second pass over the already-sorted stop-time list is a no-op, provided
no op is a fallback (all carry a resolved sequence). -/
theorem stuOps_sort_idem (ops : List (Option Nat × String × StopTimeUpdate))
    (h : ∀ op ∈ ops, ∃ q, op.1 = some q ∧ (op.2.2).stop_sequence = some q)
    (L : List StopTimeUpdate) :
    sortByKey stuKey (ops.foldl applyStuOp (sortByKey stuKey (ops.foldl applyStuOp L))) =
      sortByKey stuKey (ops.foldl applyStuOp L) := by
  rw [stuOps_as_applyOps ops h, stuOps_as_applyOps ops h]
  refine applyOps_sort_idem stuKey (fun q u => u.stop_sequence = some q) ?_ _ ?_ L
  · intro q u hqu
    simp [stuKey, hqu]
  · intro qv hqv
    rcases List.mem_map.1 hqv with ⟨op, hop, rfl⟩
    obtain ⟨q, hq1, hq2⟩ := h op hop
    simpa [hq1] using hq2

/-- Second pass over the already-sorted platform list is a no-op. -/
theorem plats_sort_idem (U : List (Nat × String × String)) (e : List PlatformInfo) :
    sortByKey (fun p => p.sequence)
        (applyPlatUpdates U (sortByKey (fun p => p.sequence) (applyPlatUpdates U e))) =
      sortByKey (fun p => p.sequence) (applyPlatUpdates U e) := by
  rw [applyPlatUpdates_as_applyOps, applyPlatUpdates_as_applyOps]
  refine applyOps_sort_idem (fun p => p.sequence) (fun q p => p.sequence = q) ?_ _ ?_ e
  · intro q p h
    exact h
  · intro qv hqv
    rcases List.mem_map.1 hqv with ⟨u, _, rfl⟩
    rfl

/-- Explicit form of `updateTripResolved` when the entity has a trip update. -/
theorem updateTripResolved_char (g : GtfsIndex) (fmt : NDate → Nat → String) (dp : NDate)
    (tid : String) (ts : TrainStatus) (s : AppState) (tu : TripUpdate)
    (htu : (entityOf g fmt dp tid s).trip_update = some tu) :
    updateTripResolved g fmt dp tid ts s = some
      { s with
        rid_to_trip_id := mapInsert ts.rid tid s.rid_to_trip_id
        trip_updates := mapInsert tid
          { entityOf g fmt dp tid s with trip_update := some ({ tu with
              stop_time_update := sortByKey stuKey
                ((stuOpsOf g (tripStopsOf g tid) ts.ssd 0 ts.locations).foldl applyStuOp
                  tu.stop_time_update) }) } s.trip_updates
        platforms_v2 :=
          if platOf g (tripStopsOf g tid) 0 [] ts.locations = [] then s.platforms_v2
          else mapInsert tid (sortByKey (fun p => p.sequence)
            (applyPlatUpdates (platOf g (tripStopsOf g tid) 0 [] ts.locations)
              ((mapLookup tid s.platforms_v2).getD []))) s.platforms_v2 } := by
  rw [updateTripResolved.eq_def]
  simp only [htu]
  rw [processLocs_decomp]

theorem entityOf_insert (g : GtfsIndex) (fmt : NDate → Nat → String) (dp : NDate)
    (tid : String) (s : AppState) (e : FeedEntity) :
    entityOf g fmt dp tid { s with trip_updates := mapInsert tid e s.trip_updates } = e := by
  rw [entityOf]
  simp only [mapLookup_insert_self]

/-- C4 (amended): `update_trip` is idempotent provided the forward scan
resolves a sequence for every location that carries time data (no stop-id
fallback upsert occurs). -/
theorem updateTrip_idempotent (g : GtfsIndex) (today : NDate)
    (fmt : NDate → Nat → String) (ts : TrainStatus) (s : AppState)
    (hnf : ∀ tid, resolveTripId g today ts = some tid →
      noFallback g (tripStopsOf g tid) 0 ts.locations = true) :
    (updateTrip g today fmt ts s).bind (updateTrip g today fmt ts) =
      updateTrip g today fmt ts s := by
  rcases hfind : g.find_trip_id ts.uid ((parseDateYMD ts.ssd).getD today) with _ | tid
  · have h1 : updateTrip g today fmt ts s = some s := by
      rw [updateTrip.eq_def]
      simp only [hfind]
    have h2 : (updateTrip g today fmt ts s).bind (updateTrip g today fmt ts) =
        updateTrip g today fmt ts s := by
      rw [h1]
      show updateTrip g today fmt ts s = some s
      exact h1
    rw [h2, h1]
  · have hres : resolveTripId g today ts = some tid := hfind
    have hnf' := hnf tid hres
    have hup : updateTrip g today fmt ts s =
        updateTripResolved g fmt ((parseDateYMD ts.ssd).getD today) tid ts s := by
      rw [updateTrip.eq_def]
      simp only [hfind]
    rcases htu : (entityOf g fmt ((parseDateYMD ts.ssd).getD today) tid s).trip_update
      with _ | tu
    · have h2 : updateTripResolved g fmt ((parseDateYMD ts.ssd).getD today) tid ts s = none := by
        rw [updateTripResolved.eq_def]
        simp only [htu]
      rw [hup, h2]
      rfl
    · -- the interesting case: a first pass happened; replay it
      have hshape := noFallback_ops g (tripStopsOf g tid) ts.ssd ts.locations 0 hnf'
      have hchar := updateTripResolved_char g fmt ((parseDateYMD ts.ssd).getD today)
        tid ts s tu htu
      rw [hup, hchar]
      -- the state after the first pass
      set dp := (parseDateYMD ts.ssd).getD today with hdp
      set ops := stuOpsOf g (tripStopsOf g tid) ts.ssd 0 ts.locations with hops_def
      set U := platOf g (tripStopsOf g tid) 0 [] ts.locations with hU_def
      set L1 := sortByKey stuKey (ops.foldl applyStuOp tu.stop_time_update) with hL1
      set tu' : TripUpdate := { tu with stop_time_update := L1 } with htu'
      set entity' : FeedEntity :=
        { entityOf g fmt dp tid s with trip_update := some tu' } with hentity'
      set plats1 : List (String × List PlatformInfo) :=
        (if U = [] then s.platforms_v2
         else mapInsert tid (sortByKey (fun p => p.sequence)
           (applyPlatUpdates U ((mapLookup tid s.platforms_v2).getD []))) s.platforms_v2)
        with hplats1
      set s' : AppState :=
        { s with
          rid_to_trip_id := mapInsert ts.rid tid s.rid_to_trip_id
          trip_updates := mapInsert tid entity' s.trip_updates
          platforms_v2 := plats1 } with hs'
      show (some s').bind (updateTrip g today fmt ts) = some s'
      have hbind : (some s').bind (updateTrip g today fmt ts) = updateTrip g today fmt ts s' := rfl
      rw [hbind]
      have hup2 : updateTrip g today fmt ts s' = updateTripResolved g fmt dp tid ts s' := by
        rw [updateTrip.eq_def]
        simp only [hfind, hdp]
      have hent2 : entityOf g fmt dp tid s' = entity' := by
        rw [hs']
        exact entityOf_insert g fmt dp tid
          { s with rid_to_trip_id := mapInsert ts.rid tid s.rid_to_trip_id
                   platforms_v2 := plats1 } entity'
      have htu2 : (entityOf g fmt dp tid s').trip_update = some tu' := by
        rw [hent2, hentity']
      have hchar2 := updateTripResolved_char g fmt dp tid ts s' tu' htu2
      rw [hup2, hchar2, hent2]
      -- now both sides are explicit records; reduce the pieces
      have hstus2 : sortByKey stuKey (ops.foldl applyStuOp tu'.stop_time_update) = L1 := by
        rw [htu']
        show sortByKey stuKey (ops.foldl applyStuOp L1) = L1
        rw [hL1]
        exact stuOps_sort_idem ops hshape tu.stop_time_update
      have hent_eq : FeedEntity.mk entity'.id
          (some (TripUpdate.mk tu'.trip
            (sortByKey stuKey (List.foldl applyStuOp tu'.stop_time_update ops))))
          entity'.vehicle = entity' := by
        rw [hstus2]
      refine congrArg some ?_
      show AppState.mk
          (mapInsert tid
            (FeedEntity.mk entity'.id
              (some (TripUpdate.mk tu'.trip
                (sortByKey stuKey (List.foldl applyStuOp tu'.stop_time_update ops))))
              entity'.vehicle)
            s'.trip_updates)
          (if platOf g (tripStopsOf g tid) 0 [] ts.locations = [] then s'.platforms_v2
           else mapInsert tid (sortByKey (fun p => p.sequence)
             (applyPlatUpdates (platOf g (tripStopsOf g tid) 0 [] ts.locations)
               ((mapLookup tid s'.platforms_v2).getD []))) s'.platforms_v2)
          s'.station_messages
          (mapInsert ts.rid tid s'.rid_to_trip_id) = s'
      have hproj_tu : s'.trip_updates = mapInsert tid entity' s.trip_updates := by rw [hs']
      have hproj_pl : s'.platforms_v2 = plats1 := by rw [hs']
      have hproj_sm : s'.station_messages = s.station_messages := by rw [hs']
      have hproj_rid : s'.rid_to_trip_id = mapInsert ts.rid tid s.rid_to_trip_id := by rw [hs']
      rw [hent_eq, hproj_tu, hproj_pl, hproj_sm, hproj_rid, ← hU_def]
      have hfield_tu : mapInsert tid entity' (mapInsert tid entity' s.trip_updates) =
          mapInsert tid entity' s.trip_updates := mapInsert_idem tid entity' s.trip_updates
      have hfield_rid : mapInsert ts.rid tid (mapInsert ts.rid tid s.rid_to_trip_id) =
          mapInsert ts.rid tid s.rid_to_trip_id := mapInsert_idem ts.rid tid s.rid_to_trip_id
      have hfield_pl :
          (if U = [] then plats1
           else mapInsert tid (sortByKey (fun p => p.sequence)
             (applyPlatUpdates U ((mapLookup tid plats1).getD []))) plats1) = plats1 := by
        by_cases hU : U = []
        · rw [if_pos hU]
        · rw [if_neg hU]
          have hpl1 : plats1 = mapInsert tid (sortByKey (fun p => p.sequence)
              (applyPlatUpdates U ((mapLookup tid s.platforms_v2).getD []))) s.platforms_v2 := by
            rw [hplats1, if_neg hU]
          rw [hpl1, mapLookup_insert_self]
          rw [show (some (sortByKey (fun p => p.sequence)
              (applyPlatUpdates U ((mapLookup tid s.platforms_v2).getD [])))).getD [] =
              sortByKey (fun p => p.sequence)
                (applyPlatUpdates U ((mapLookup tid s.platforms_v2).getD [])) from rfl]
          rw [plats_sort_idem U ((mapLookup tid s.platforms_v2).getD []), mapInsert_idem]
      rw [hfield_tu, hfield_rid, hfield_pl, hs', hproj_sm]

/-! ### Forward-greedy scan lemmas (loop disambiguation) -/
theorem scanStops_found (sid : String) (q : Nat) (A R : List (String × Nat))
    (hA : sid ∉ A.map Prod.fst) :
    ∀ i, scanStops sid (A ++ (sid, q) :: R) i = some (q, i + A.length + 1) := by
  induction A with
  | nil =>
    intro i
    simp [scanStops]
  | cons e A' ih =>
    intro i
    obtain ⟨s0, q0⟩ := e
    have hs0 : ¬ s0 = sid := by
      intro h
      exact hA (by simp [h])
    have hA' : sid ∉ A'.map Prod.fst := fun h => hA (by simp [h])
    rw [List.cons_append, scanStops, if_neg hs0]
    rw [ih hA' (i + 1)]
    congr 1
    congr 1
    simp [List.length_cons]
    omega

theorem scanStops_none (sid : String) :
    ∀ (l : List (String × Nat)) (i : Nat), (∀ e ∈ l, e.1 ≠ sid) →
    scanStops sid l i = none := by
  intro l
  induction l with
  | nil => intro i _; rfl
  | cons e rest ih =>
    intro i h
    obtain ⟨s0, q0⟩ := e
    rw [scanStops, if_neg (h (s0, q0) (by simp))]
    exact ih (i + 1) (fun e he => h e (List.mem_cons_of_mem _ he))

theorem findSeq_none (stops : List (String × Nat)) (idx : Nat) (sid : String)
    (h : ∀ e ∈ stops.drop idx, e.1 ≠ sid) : findSeq stops idx sid = none := by
  rw [findSeq]
  exact scanStops_none sid (stops.drop idx) idx h

/-- The two-visit shape: first scan hits the first occurrence, the advanced
cursor makes the second scan hit the second occurrence. -/
theorem assignSeqs_two_visits (A B C : List (String × Nat)) (sid : String) (s1 s2 : Nat)
    (hA : sid ∉ A.map Prod.fst) (hB : sid ∉ B.map Prod.fst) :
    assignSeqs (A ++ (sid, s1) :: (B ++ (sid, s2) :: C)) 0 [some sid, some sid] =
      [some s1, some s2] := by
  have h1 : findSeq (A ++ (sid, s1) :: (B ++ (sid, s2) :: C)) 0 sid =
      some (s1, A.length + 1) := by
    rw [findSeq, List.drop_zero, scanStops_found sid s1 A (B ++ (sid, s2) :: C) hA 0]
    congr 1
    congr 1
    omega
  have hdrop : (A ++ (sid, s1) :: (B ++ (sid, s2) :: C)).drop (A.length + 1) =
      B ++ (sid, s2) :: C := by
    have : A ++ (sid, s1) :: (B ++ (sid, s2) :: C) =
        (A ++ [(sid, s1)]) ++ (B ++ (sid, s2) :: C) := by simp
    rw [this]
    have hlen : (A ++ [(sid, s1)]).length = A.length + 1 := by simp
    rw [← hlen, List.drop_left]
  have h2 : findSeq (A ++ (sid, s1) :: (B ++ (sid, s2) :: C)) (A.length + 1) sid =
      some (s2, A.length + 1 + B.length + 1) := by
    rw [findSeq, hdrop, scanStops_found sid s2 B C hB (A.length + 1)]
  rw [assignSeqs, stepSeq, h1]
  rw [assignSeqs, stepSeq, h2]
  rfl

theorem stuSeqs_cons (u : StopTimeUpdate) (l : List StopTimeUpdate) :
    stuSeqs (u :: l) = match u.stop_sequence with
      | some q => q :: stuSeqs l
      | none => stuSeqs l := by
  cases hq : u.stop_sequence with
  | none => simp [stuSeqs, List.filterMap_cons, hq]
  | some q => simp [stuSeqs, List.filterMap_cons, hq]

theorem seqs_upsertStuBySeq (q : Nat) (stu : StopTimeUpdate) (hstu : stu.stop_sequence = some q) :
    ∀ l : List StopTimeUpdate,
    stuSeqs (upsertStuBySeq q stu l) = stuSeqs l ∨
      (stuSeqs (upsertStuBySeq q stu l) = stuSeqs l ++ [q] ∧
        ∀ u ∈ l, u.stop_sequence ≠ some q) := by
  intro l
  induction l with
  | nil =>
    right
    constructor
    · show stuSeqs [stu] = stuSeqs [] ++ [q]
      simp [stuSeqs, List.filterMap_cons, hstu]
    · intro u hu
      exact absurd hu (List.not_mem_nil u)
  | cons u l' ih =>
    by_cases hu : u.stop_sequence = some q
    · left
      have h1 : upsertStuBySeq q stu (u :: l') = stu :: l' := by
        rw [upsertStuBySeq, upsertBy, if_pos hu]
      rw [h1, stuSeqs_cons, stuSeqs_cons, hu, hstu]
    · have h1 : upsertStuBySeq q stu (u :: l') = u :: upsertStuBySeq q stu l' := by
        rw [upsertStuBySeq, upsertBy, if_neg hu]
        rfl
      rcases ih with h | ⟨h, hall⟩
      · left
        rw [h1, stuSeqs_cons, stuSeqs_cons]
        cases u.stop_sequence with
        | none => exact h
        | some t => rw [show stuSeqs (upsertStuBySeq q stu l') = stuSeqs l' from h]
      · right
        refine ⟨?_, ?_⟩
        · rw [h1, stuSeqs_cons, stuSeqs_cons]
          cases u.stop_sequence with
          | none => exact h
          | some t =>
            rw [show stuSeqs (upsertStuBySeq q stu l') = stuSeqs l' ++ [q] from h]
            rfl
        · intro w hw
          rcases List.mem_cons.1 hw with hw | hw
          · exact hw ▸ hu
          · exact hall w hw

theorem mem_stuSeqs (t : Nat) (l : List StopTimeUpdate) :
    t ∈ stuSeqs l ↔ ∃ u ∈ l, u.stop_sequence = some t := by
  simp [stuSeqs, List.mem_filterMap]

theorem nodup_upsertStuBySeq (q : Nat) (stu : StopTimeUpdate)
    (hstu : stu.stop_sequence = some q) (l : List StopTimeUpdate)
    (h : (stuSeqs l).Nodup) : (stuSeqs (upsertStuBySeq q stu l)).Nodup := by
  rcases seqs_upsertStuBySeq q stu hstu l with heq | ⟨heq, hall⟩
  · rw [heq]; exact h
  · rw [heq]
    rw [List.nodup_append]
    refine ⟨h, List.nodup_singleton q, ?_⟩
    intro t ht hts
    rcases List.mem_singleton.1 hts with rfl
    rcases (mem_stuSeqs t l).1 ht with ⟨u, hu, hut⟩
    exact hall u hu hut

theorem seqs_upsertStuByStop (sid : String) (stu : StopTimeUpdate)
    (hstu : stu.stop_sequence = none) :
    ∀ l : List StopTimeUpdate, (stuSeqs (upsertStuByStop sid stu l)).Sublist (stuSeqs l) := by
  intro l
  induction l with
  | nil =>
    show (stuSeqs [stu]).Sublist (stuSeqs [])
    simp [stuSeqs, List.filterMap_cons, hstu]
  | cons u l' ih =>
    by_cases hu : u.stop_id = some sid
    · have h1 : upsertStuByStop sid stu (u :: l') = stu :: l' := by
        rw [upsertStuByStop, upsertBy, if_pos hu]
      rw [h1, stuSeqs_cons, stuSeqs_cons, hstu]
      cases u.stop_sequence with
      | none => exact List.Sublist.refl _
      | some t => exact List.sublist_cons_of_sublist t (List.Sublist.refl _)
    · have h1 : upsertStuByStop sid stu (u :: l') = u :: upsertStuByStop sid stu l' := by
        rw [upsertStuByStop, upsertBy, if_neg hu]
        rfl
      rw [h1, stuSeqs_cons, stuSeqs_cons]
      cases u.stop_sequence with
      | none => exact ih
      | some t => exact List.Sublist.cons₂ t ih

theorem nodup_applyStuOp (op : Option Nat × String × StopTimeUpdate)
    (hop : (op.2.2).stop_sequence = op.1) (m : List StopTimeUpdate)
    (h : (stuSeqs m).Nodup) : (stuSeqs (applyStuOp m op)).Nodup := by
  rcases hq : op.1 with _ | q
  · have h1 : applyStuOp m op = upsertStuByStop op.2.1 op.2.2 m := by
      rw [applyStuOp, hq]
    rw [h1]
    exact ((seqs_upsertStuByStop op.2.1 op.2.2 (by rw [hop, hq]) m).nodup h)
  · have h1 : applyStuOp m op = upsertStuBySeq q op.2.2 m := by
      rw [applyStuOp, hq]
    rw [h1]
    exact nodup_upsertStuBySeq q op.2.2 (by rw [hop, hq]) m h

/-- Every recorded op's update carries exactly the found sequence. -/
theorem stuOpsOf_shape (g : GtfsIndex) (stops : List (String × Nat)) (ssd : String) :
    ∀ (locs : List Location) (c : Nat) (op : Option Nat × String × StopTimeUpdate),
    op ∈ stuOpsOf g stops ssd c locs → (op.2.2).stop_sequence = op.1 := by
  intro locs
  induction locs with
  | nil => intro c op hop; simp [stuOpsOf] at hop
  | cons loc rest ih =>
    intro c op hop
    cases htl : loc.tiploc.bind g.get_stop_id with
    | none =>
      rw [stuOpsOf, htl] at hop
      exact ih c op hop
    | some sid =>
      rw [stuOpsOf, htl] at hop
      rcases List.mem_append.1 hop with hop | hop
      · by_cases htd : has_time_data loc
        · rw [if_pos htd] at hop
          rcases List.mem_singleton.1 hop with rfl
          rfl
        · rw [if_neg htd] at hop
          simp at hop
      · exact ih _ op hop

theorem nodup_foldl_applyStuOp (ops : List (Option Nat × String × StopTimeUpdate))
    (hops : ∀ op ∈ ops, (op.2.2).stop_sequence = op.1) :
    ∀ m, (stuSeqs m).Nodup → (stuSeqs (ops.foldl applyStuOp m)).Nodup := by
  induction ops with
  | nil => intro m h; exact h
  | cons op ops' ih =>
    intro m h
    have h1 : (op :: ops').foldl applyStuOp m = ops'.foldl applyStuOp (applyStuOp m op) := rfl
    rw [h1]
    exact ih (fun op hop => hops op (List.mem_cons_of_mem _ hop)) _
      (nodup_applyStuOp op (hops op (by simp)) m h)

theorem nodup_stuSeqs_sortByKey (l : List StopTimeUpdate) (h : (stuSeqs l).Nodup) :
    (stuSeqs (sortByKey stuKey l)).Nodup := by
  have hperm : (stuSeqs (sortByKey stuKey l)).Perm (stuSeqs l) := by
    have h2 := List.Perm.filterMap (fun u : StopTimeUpdate => u.stop_sequence)
      (sortByKey_perm stuKey l)
    exact h2
  exact hperm.nodup_iff.2 h

/-- C3: after every application of a `TrainStatus`, each trip's stop-time
update list is sorted by `stop_sequence` ascending (absent = 0 at the head)
and has no two entries with the same present sequence number — provided the
pre-state satisfies the same invariant (it holds vacuously of the empty
initial state). -/
theorem updateTrip_preserves_stuInv (g : GtfsIndex) (today : NDate)
    (fmt : NDate → Nat → String) (ts : TrainStatus) (s s' : AppState)
    (hup : updateTrip g today fmt ts s = some s')
    (hinv : ∀ kv ∈ s.trip_updates, stuInv kv.2) :
    ∀ k e, mapLookup k s'.trip_updates = some e → stuInv e := by
  rcases hfind : g.find_trip_id ts.uid ((parseDateYMD ts.ssd).getD today) with _ | tid
  · have h1 : updateTrip g today fmt ts s = some s := by
      rw [updateTrip.eq_def]
      simp only [hfind]
    rw [h1] at hup
    rcases Option.some.injEq _ _ ▸ hup with rfl
    intro k e hlook
    exact hinv (k, e) (mapLookup_mem k s.trip_updates e hlook)
  · have h2 : updateTrip g today fmt ts s =
        updateTripResolved g fmt ((parseDateYMD ts.ssd).getD today) tid ts s := by
      rw [updateTrip.eq_def]
      simp only [hfind]
    rw [h2] at hup
    rcases htu : (entityOf g fmt ((parseDateYMD ts.ssd).getD today) tid s).trip_update
      with _ | tu
    · rw [updateTripResolved.eq_def] at hup
      simp only [htu] at hup
      exact absurd hup (by simp)
    · rw [updateTripResolved_char g fmt ((parseDateYMD ts.ssd).getD today) tid ts s tu htu]
        at hup
      have hL0 : (stuSeqs tu.stop_time_update).Nodup := by
        rcases hent : mapLookup tid s.trip_updates with _ | e0
        · have he : entityOf g fmt ((parseDateYMD ts.ssd).getD today) tid s =
              newTripEntity g fmt ((parseDateYMD ts.ssd).getD today) tid := by
            rw [entityOf, hent]
          rw [he] at htu
          have : tu.stop_time_update = [] := by
            rw [newTripEntity] at htu
            simp only [Option.some.injEq] at htu
            rw [← htu]
          rw [this]
          exact List.nodup_nil
        · have he : entityOf g fmt ((parseDateYMD ts.ssd).getD today) tid s = e0 := by
            rw [entityOf, hent]
          rw [he] at htu
          have hie := hinv (tid, e0) (mapLookup_mem tid s.trip_updates e0 hent)
          rw [stuInv, htu] at hie
          exact hie.2
      rcases Option.some.injEq _ _ ▸ hup with rfl
      intro k e hlook
      by_cases hk : k = tid
      · subst hk
        have hself := mapLookup_insert_self k
          ({ entityOf g fmt ((parseDateYMD ts.ssd).getD today) k s with trip_update := some ({ tu with
              stop_time_update := sortByKey stuKey
                ((stuOpsOf g (tripStopsOf g k) ts.ssd 0 ts.locations).foldl applyStuOp
                  tu.stop_time_update) }) }) s.trip_updates
        rw [hself] at hlook
        rcases Option.some.injEq _ _ ▸ hlook with rfl
        show stuInv _
        rw [stuInv]
        refine ⟨sortByKey_sorted stuKey _, ?_⟩
        refine nodup_stuSeqs_sortByKey _ ?_
        exact nodup_foldl_applyStuOp _
          (fun op hop => stuOpsOf_shape g (tripStopsOf g k) ts.ssd ts.locations 0 op hop)
          _ hL0
      · rw [mapLookup_insert_other tid k _ s.trip_updates hk] at hlook
        exact hinv (k, e) (mapLookup_mem k s.trip_updates e hlook)

/-! ### Platform suppression (C2) -/
theorem mem_hmInsert (q : Nat) (v : String × String) (m : List (Nat × String × String))
    (x : Nat × String × String) (h : x ∈ hmInsert q v m) : x = (q, v) ∨ x ∈ m := by
  induction m with
  | nil => simpa [hmInsert] using h
  | cons e rest ih =>
    obtain ⟨q0, w⟩ := e
    by_cases h0 : q0 = q
    · rw [hmInsert, if_pos h0] at h
      rcases List.mem_cons.1 h with h | h
      · exact Or.inl h
      · exact Or.inr (List.mem_cons_of_mem _ h)
    · rw [hmInsert, if_neg h0] at h
      rcases List.mem_cons.1 h with h | h
      · exact Or.inr (by simp [h])
      · rcases ih h with h | h
        · exact Or.inl h
        · exact Or.inr (List.mem_cons_of_mem _ h)

theorem mem_applyPlatUpdates (U : List (Nat × String × String)) :
    ∀ (e : List PlatformInfo) (pi : PlatformInfo), pi ∈ applyPlatUpdates U e →
    pi ∈ e ∨ ∃ u ∈ U, pi = (⟨u.2.1, u.1, u.2.2⟩ : PlatformInfo) := by
  induction U with
  | nil => intro e pi h; exact Or.inl h
  | cons u U' ih =>
    intro e pi h
    have h1 : applyPlatUpdates (u :: U') e =
        applyPlatUpdates U' (upsertPlatform ⟨u.2.1, u.1, u.2.2⟩ e) := rfl
    rw [h1] at h
    rcases ih _ pi h with h | ⟨w, hw, rfl⟩
    · rcases mem_upsertBy _ _ _ _ h with h | h
      · exact Or.inr ⟨u, by simp, h⟩
      · exact Or.inl h
    · exact Or.inr ⟨w, List.mem_cons_of_mem _ hw, rfl⟩

theorem platOf_source (g : GtfsIndex) (stops : List (String × Nat)) :
    ∀ (locs : List Location) (c : Nat) (P : List (Nat × String × String))
      (u : Nat × String × String), u ∈ platOf g stops c P locs →
    u ∈ P ∨ PlatformSourced g locs u.2.1 u.2.2 := by
  intro locs
  induction locs with
  | nil =>
    intro c P u h
    exact Or.inl h
  | cons loc rest ih =>
    intro c P u h
    have hlift : ∀ sid num, PlatformSourced g rest sid num →
        PlatformSourced g (loc :: rest) sid num := by
      intro sid num ⟨l, hl, hrest⟩
      exact ⟨l, List.mem_cons_of_mem _ hl, hrest⟩
    cases htl : loc.tiploc.bind g.get_stop_id with
    | none =>
      rw [platOf, htl] at h
      rcases ih _ _ u h with h | h
      · exact Or.inl h
      · exact Or.inr (hlift _ _ h)
    | some sid =>
      rw [platOf, htl] at h
      rcases Option.bind_eq_some.1 htl with ⟨tpl, htpl, hsid⟩
      cases hpf : loc.platform with
      | none =>
        simp only [hpf] at h
        rcases ih _ _ u h with h | h
        · exact Or.inl h
        · exact Or.inr (hlift _ _ h)
      | some plat =>
        simp only [hpf] at h
        by_cases hsup : (plat.platsup.getD false || loc.suppr.getD false) = true
        · rw [if_pos hsup] at h
          rcases ih _ _ u h with h | h
          · exact Or.inl h
          · exact Or.inr (hlift _ _ h)
        · rw [if_neg hsup] at h
          cases hnum : plat.number with
          | none =>
            simp only [hnum] at h
            rcases ih _ _ u h with h | h
            · exact Or.inl h
            · exact Or.inr (hlift _ _ h)
          | some num =>
            simp only [hnum] at h
            cases hfs : (stepSeq stops c (some sid)).1 with
            | none =>
              simp only [hfs] at h
              rcases ih _ _ u h with h | h
              · exact Or.inl h
              · exact Or.inr (hlift _ _ h)
            | some seq =>
              simp only [hfs] at h
              rcases ih _ _ u h with h | h
              · rcases mem_hmInsert seq (sid, num) P u h with rfl | h2
                · refine Or.inr ⟨loc, by simp, tpl, plat, htpl, hsid, hpf, hnum, ?_⟩
                  exact Bool.not_eq_true _ ▸ hsup
                · exact Or.inl h2
              · exact Or.inr (hlift _ _ h)

theorem processLoc_flags (g : GtfsIndex) (stops : List (String × Nat)) (ssd : String)
    (c k : Option Bool) (acc : LocAcc) (loc : Location) :
    processLoc g stops ssd acc (flagLoc c k loc) = processLoc g stops ssd acc loc := by
  obtain ⟨tpl, pf, sup, arr, dep, pass⟩ := loc
  cases pf with
  | none => rfl
  | some p =>
    obtain ⟨num, cis, platsup, conf, src⟩ := p
    rfl

theorem processLocs_flags (g : GtfsIndex) (stops : List (String × Nat)) (ssd : String)
    (c k : Option Bool) :
    ∀ (locs : List Location) (acc : LocAcc),
    processLocs g stops ssd acc (locs.map (flagLoc c k)) = processLocs g stops ssd acc locs := by
  intro locs
  induction locs with
  | nil => intro acc; rfl
  | cons loc rest ih =>
    intro acc
    have h1 : processLocs g stops ssd acc ((loc :: rest).map (flagLoc c k)) =
        processLocs g stops ssd (processLoc g stops ssd acc (flagLoc c k loc))
          (rest.map (flagLoc c k)) := rfl
    rw [h1, processLoc_flags, ih]
    rfl

theorem updateTripResolved_flags (g : GtfsIndex) (fmt : NDate → Nat → String) (dp : NDate)
    (tid : String) (c k : Option Bool) (ts : TrainStatus) (s : AppState) :
    updateTripResolved g fmt dp tid (setInfoFlags c k ts) s =
      updateTripResolved g fmt dp tid ts s := by
  rw [updateTripResolved.eq_def, updateTripResolved.eq_def]
  cases htu : (entityOf g fmt dp tid s).trip_update with
  | none => simp only [htu]
  | some tu =>
    simp only [htu]
    have hssd : (setInfoFlags c k ts).ssd = ts.ssd := rfl
    have hrid : (setInfoFlags c k ts).rid = ts.rid := rfl
    have hlocs : (setInfoFlags c k ts).locations = ts.locations.map (flagLoc c k) := rfl
    rw [hssd, hrid, hlocs, processLocs_flags]

/-- C2: a suppressed platform is never written to `platforms_v2` — every
platform entry after `update_trip` either pre-existed or stems from a
non-suppressed location carrying that platform number — and the
informational `cisPlatsup`/`conf` attributes have no effect on the result. -/
theorem updateTrip_platform_suppression (g : GtfsIndex) (today : NDate)
    (fmt : NDate → Nat → String) (ts : TrainStatus) (s : AppState) :
    (∀ s', updateTrip g today fmt ts s = some s' →
      ∀ key entry, mapLookup key s'.platforms_v2 = some entry →
      ∀ pi ∈ entry,
        (∃ entry0, mapLookup key s.platforms_v2 = some entry0 ∧ pi ∈ entry0) ∨
        PlatformSourced g ts.locations pi.stop_id pi.platform)
    ∧ (∀ c k, updateTrip g today fmt (setInfoFlags c k ts) s = updateTrip g today fmt ts s) := by
  constructor
  · intro s' hup key entry hentry pi hpi
    rcases hfind : g.find_trip_id ts.uid ((parseDateYMD ts.ssd).getD today) with _ | tid
    · have h1 : updateTrip g today fmt ts s = some s := by
        rw [updateTrip.eq_def]
        simp only [hfind]
      rw [h1] at hup
      rcases Option.some.injEq _ _ ▸ hup with rfl
      exact Or.inl ⟨entry, hentry, hpi⟩
    · have h2 : updateTrip g today fmt ts s =
          updateTripResolved g fmt ((parseDateYMD ts.ssd).getD today) tid ts s := by
        rw [updateTrip.eq_def]
        simp only [hfind]
      rw [h2] at hup
      rcases htu : (entityOf g fmt ((parseDateYMD ts.ssd).getD today) tid s).trip_update
        with _ | tu
      · rw [updateTripResolved.eq_def] at hup
        simp only [htu] at hup
        exact absurd hup (by simp)
      · rw [updateTripResolved_char g fmt ((parseDateYMD ts.ssd).getD today) tid ts s tu htu]
          at hup
        rcases Option.some.injEq _ _ ▸ hup with rfl
        by_cases hU : platOf g (tripStopsOf g tid) 0 [] ts.locations = []
        · rw [if_pos hU] at hentry
          exact Or.inl ⟨entry, hentry, hpi⟩
        · rw [if_neg hU] at hentry
          by_cases hkey : key = tid
          · subst hkey
            rw [mapLookup_insert_self] at hentry
            rcases Option.some.injEq _ _ ▸ hentry with rfl
            have hpi2 := (mem_sortByKey (fun p => p.sequence) _ pi).1 hpi
            rcases mem_applyPlatUpdates _ _ pi hpi2 with hmem | ⟨u, hu, rfl⟩
            · rcases hlook : mapLookup key s.platforms_v2 with _ | e0
              · rw [hlook] at hmem
                simp at hmem
              · rw [hlook] at hmem
                exact Or.inl ⟨e0, rfl, hmem⟩
            · rcases platOf_source g (tripStopsOf g key) ts.locations 0 [] u hu with h | h
              · exact absurd h (List.not_mem_nil u)
              · exact Or.inr h
          · rw [mapLookup_insert_other tid key _ s.platforms_v2 hkey] at hentry
            exact Or.inl ⟨entry, hentry, hpi⟩
  · intro c k
    rw [updateTrip.eq_def, updateTrip.eq_def]
    have hssd : (setInfoFlags c k ts).ssd = ts.ssd := rfl
    have huid : (setInfoFlags c k ts).uid = ts.uid := rfl
    rw [hssd, huid]
    cases hfind : g.find_trip_id ts.uid ((parseDateYMD ts.ssd).getD today) with
    | none => simp only [hfind]
    | some tid =>
      simp only [hfind]
      exact updateTripResolved_flags g fmt _ tid c k ts s

/-! ### Garbage-collection lemmas (C6, C9) -/
theorem foldl_mapRemove {β : Type} (ks : List String) :
    ∀ m : List (String × β),
    ks.foldl (fun m k => mapRemove k m) m = m.filter (fun kv => !ks.contains kv.1) := by
  induction ks with
  | nil =>
    intro m
    have h : ∀ kv : String × β, (!List.contains [] kv.1) = true := by
      intro kv
      rfl
    rw [List.foldl_nil, List.filter_eq_self.2 (fun kv _ => h kv)]
  | cons k ks' ih =>
    intro m
    rw [List.foldl_cons, ih (mapRemove k m), mapRemove, List.filter_filter]
    refine List.filter_congr (fun kv _ => ?_)
    by_cases h1 : kv.1 = k
    · subst h1
      simp
    · simp [h1, List.contains_cons]

theorem contains_eq_decide_mem (l : List String) (x : String) :
    l.contains x = decide (x ∈ l) :=
  List.elem_eq_mem x l

theorem nodup_key_val_eq {β : Type} (l : List (String × β)) (h : (l.map Prod.fst).Nodup) :
    ∀ k (a b : β), (k, a) ∈ l → (k, b) ∈ l → a = b := by
  induction l with
  | nil => intro k a b ha _; exact absurd ha (List.not_mem_nil _)
  | cons kv rest ih =>
    intro k a b ha hb
    obtain ⟨k0, v0⟩ := kv
    rw [List.map_cons, List.nodup_cons] at h
    rcases List.mem_cons.1 ha with ha | ha <;> rcases List.mem_cons.1 hb with hb | hb
    · have h1 : a = v0 := (Prod.mk.injEq _ _ _ _ ▸ ha).2
      have h2 : b = v0 := (Prod.mk.injEq _ _ _ _ ▸ hb).2
      rw [h1, h2]
    · have hk : k = k0 := (Prod.mk.injEq _ _ _ _ ▸ ha).1
      have hmem : k ∈ List.map Prod.fst rest := List.mem_map.2 ⟨(k, b), hb, rfl⟩
      rw [hk] at hmem
      exact absurd hmem h.1
    · have hk : k = k0 := (Prod.mk.injEq _ _ _ _ ▸ hb).1
      have hmem : k ∈ List.map Prod.fst rest := List.mem_map.2 ⟨(k, a), ha, rfl⟩
      rw [hk] at hmem
      exact absurd hmem h.1
    · exact ih h.2 k a b ha hb

/-- The `trip_updates` map after GC: exactly the non-expired entries. -/
theorem cleanup_trip_updates_eq (now threshold : Int) (s : AppState)
    (hnd : (s.trip_updates.map Prod.fst).Nodup) :
    (cleanup_old_trips now threshold s).trip_updates =
      s.trip_updates.filter (fun kv => !expired now threshold kv.2) := by
  rw [cleanup_old_trips]
  by_cases hR : (s.trip_updates.filter (fun kv => expired now threshold kv.2)).map
      (fun kv => kv.1) = []
  · rw [if_pos hR]
    have h0 : s.trip_updates.filter (fun kv => expired now threshold kv.2) = [] :=
      List.map_eq_nil_iff.1 hR
    have h1 : ∀ kv ∈ s.trip_updates, expired now threshold kv.2 = false := by
      intro kv hkv
      by_contra h2
      have h3 : kv ∈ s.trip_updates.filter (fun kv => expired now threshold kv.2) :=
        List.mem_filter.2 ⟨hkv, by revert h2; cases expired now threshold kv.2 <;> simp⟩
      rw [h0] at h3
      exact absurd h3 (List.not_mem_nil kv)
    exact (List.filter_eq_self.2 (fun kv hkv => by rw [h1 kv hkv]; rfl)).symm
  · rw [if_neg hR]
    show List.foldl _ s.trip_updates _ = _
    rw [foldl_mapRemove]
    refine List.filter_congr (fun kv hkv => ?_)
    have hmap : ((s.trip_updates.filter (fun kv => expired now threshold kv.2)).map
        (fun kv => kv.1)).contains kv.1 = expired now threshold kv.2 := by
      rw [contains_eq_decide_mem]
      rcases hexp : expired now threshold kv.2 with _ | _
      · -- not expired: kv.1 cannot be a removed key (keys are unique)
        have hnotin : kv.1 ∉ (s.trip_updates.filter
            (fun kv => expired now threshold kv.2)).map (fun kv => kv.1) := by
          intro hc
          rcases List.mem_map.1 hc with ⟨kv', hkv', hk1⟩
          rcases List.mem_filter.1 hkv' with ⟨hkv'm, hkv'e⟩
          have hval : kv'.2 = kv.2 := by
            refine nodup_key_val_eq s.trip_updates hnd kv.1 kv'.2 kv.2 ?_ hkv
            rw [← hk1]
            exact hkv'm
          rw [hval, hexp] at hkv'e
          exact absurd hkv'e (by simp)
        simp [hnotin]
      · have h1 : kv ∈ s.trip_updates.filter (fun kv => expired now threshold kv.2) :=
          List.mem_filter.2 ⟨hkv, by rw [hexp]⟩
        have h2 : kv.1 ∈ (s.trip_updates.filter
            (fun kv => expired now threshold kv.2)).map (fun kv => kv.1) :=
          List.mem_map.2 ⟨kv, h1, rfl⟩
        simp [h2]
    rw [hmap]

/-- C6: GC removes exactly the entities whose maximum arrival/departure time
plus the threshold lies strictly before `now`; entities with no extracted
times survive; removed trip ids disappear from `platforms_v2`; rid entries
pointing at removed trips are deleted and all others remain. -/
theorem cleanup_old_trips_spec (s : AppState) (now threshold : Int)
    (hnd : (s.trip_updates.map Prod.fst).Nodup) :
    (cleanup_old_trips now threshold s).trip_updates =
      s.trip_updates.filter (fun kv => !expired now threshold kv.2)
    ∧ (cleanup_old_trips now threshold s).platforms_v2 =
      s.platforms_v2.filter (fun kv =>
        !((s.trip_updates.filter (fun kv => expired now threshold kv.2)).map
          (fun kv => kv.1)).contains kv.1)
    ∧ (cleanup_old_trips now threshold s).rid_to_trip_id =
      s.rid_to_trip_id.filter (fun kv =>
        !((s.trip_updates.filter (fun kv => expired now threshold kv.2)).map
          (fun kv => kv.1)).contains kv.2)
    ∧ (cleanup_old_trips now threshold s).station_messages = s.station_messages
    ∧ (∀ kv ∈ s.trip_updates, entityMaxTime kv.2 = none →
        kv ∈ (cleanup_old_trips now threshold s).trip_updates)
    ∧ (∀ kv ∈ s.trip_updates,
        (∀ t, entityMaxTime kv.2 = some t → ¬ t + threshold < now) →
        kv ∈ (cleanup_old_trips now threshold s).trip_updates) := by
  have hexp_false : ∀ e : FeedEntity, entityMaxTime e = none → expired now threshold e = false := by
    intro e he
    rw [expired, he]
  have hkeep : ∀ kv ∈ s.trip_updates, expired now threshold kv.2 = false →
      kv ∈ (cleanup_old_trips now threshold s).trip_updates := by
    intro kv hkv hf
    rw [cleanup_trip_updates_eq now threshold s hnd]
    exact List.mem_filter.2 ⟨hkv, by rw [hf]; rfl⟩
  refine ⟨cleanup_trip_updates_eq now threshold s hnd, ?_, ?_, ?_, ?_, ?_⟩
  · rw [cleanup_old_trips]
    by_cases hR : (s.trip_updates.filter (fun kv => expired now threshold kv.2)).map
        (fun kv => kv.1) = []
    · rw [if_pos hR, hR]
      exact (List.filter_eq_self.2 (fun kv _ => rfl)).symm
    · rw [if_neg hR]
      show List.foldl _ s.platforms_v2 _ = _
      rw [foldl_mapRemove]
  · rw [cleanup_old_trips]
    by_cases hR : (s.trip_updates.filter (fun kv => expired now threshold kv.2)).map
        (fun kv => kv.1) = []
    · rw [if_pos hR, hR]
      exact (List.filter_eq_self.2 (fun kv _ => rfl)).symm
    · rw [if_neg hR]
      show List.filter _ s.rid_to_trip_id = _
      refine List.filter_congr (fun kv _ => ?_)
      by_cases hc : ((s.trip_updates.filter (fun kv => expired now threshold kv.2)).map
          (fun kv => kv.1)).contains kv.2 = true
      · simp [hc]
      · simp [hc]
  · rw [cleanup_old_trips]
    by_cases hR : (s.trip_updates.filter (fun kv => expired now threshold kv.2)).map
        (fun kv => kv.1) = []
    · rw [if_pos hR]
    · rw [if_neg hR]
  · intro kv hkv he
    exact hkeep kv hkv (hexp_false kv.2 he)
  · intro kv hkv hno
    refine hkeep kv hkv ?_
    rw [expired]
    rcases hmax : entityMaxTime kv.2 with _ | t
    · rfl
    · simp [hno t hmax]

/-- C9: GC never removes an entity whose `trip_update` field is absent — in
particular every `{trip_id}_VP` vehicle-position sidecar survives, even when
its parent trip is collected in the same pass. -/
theorem cleanup_preserves_vehicle_entities (now threshold : Int) (s : AppState)
    (hnd : (s.trip_updates.map Prod.fst).Nodup) (k : String) (e : FeedEntity)
    (hmem : (k, e) ∈ s.trip_updates) (hvp : e.trip_update = none) :
    (k, e) ∈ (cleanup_old_trips now threshold s).trip_updates := by
  rw [cleanup_trip_updates_eq now threshold s hnd]
  refine List.mem_filter.2 ⟨hmem, ?_⟩
  have h1 : expired now threshold e = false := by
    rw [expired, entityMaxTime, hvp]
  rw [h1]
  rfl

/-! ### Snapshot round-trip lemmas (C5) -/
theorem foldl_mapInsert_append {β : Type} :
    ∀ (l m : List (String × β)), ((m.map Prod.fst) ++ (l.map Prod.fst)).Nodup →
    l.foldl (fun acc kv => mapInsert kv.1 kv.2 acc) m = m ++ l := by
  intro l
  induction l with
  | nil =>
    intro m _
    rw [List.foldl_nil, List.append_nil]
  | cons kv l' ih =>
    intro m hnd
    obtain ⟨k, v⟩ := kv
    have hkm : k ∉ m.map Prod.fst := by
      intro hk
      rw [List.nodup_append] at hnd
      exact hnd.2.2 hk (by simp)
    have h1 : mapInsert k v m = m ++ [(k, v)] := mapInsert_of_not_mem k v m hkm
    rw [List.foldl_cons]
    show List.foldl _ (mapInsert k v m) l' = _
    rw [h1, ih (m ++ [(k, v)]) (by simpa using hnd), List.append_assoc]
    rfl

/-- C5: serialising the state and restoring it into an empty state
reproduces `trip_updates` and `platforms_v2` exactly (the snapshot's header
timestamp plays no role).  The hypotheses record DashMap facts: keys are
unique, and `update_trip` always stores an entity under its own `id`. -/
theorem snapshot_roundtrip (s : AppState) (now : Int)
    (hid : ∀ kv ∈ s.trip_updates, (kv.2).id = kv.1)
    (h1 : (s.trip_updates.map Prod.fst).Nodup)
    (h2 : (s.platforms_v2.map Prod.fst).Nodup) :
    (load_state (save_state now s) emptyState).trip_updates = s.trip_updates ∧
    (load_state (save_state now s) emptyState).platforms_v2 = s.platforms_v2 := by
  constructor
  · show (s.trip_updates.map (fun kv => kv.2)).foldl (fun m e => mapInsert e.id e m) [] =
      s.trip_updates
    rw [List.foldl_map]
    have hext : s.trip_updates.foldl (fun m kv => mapInsert kv.2.id kv.2 m) [] =
        s.trip_updates.foldl (fun m kv => mapInsert kv.1 kv.2 m) [] := by
      refine List.foldl_ext _ _ [] (fun m kv hkv => ?_)
      rw [hid kv hkv]
    rw [hext]
    have := foldl_mapInsert_append s.trip_updates [] (by simpa using h1)
    simpa using this
  · show s.platforms_v2.foldl (fun m kv => mapInsert kv.1 kv.2 m) [] = s.platforms_v2
    have := foldl_mapInsert_append s.platforms_v2 [] (by simpa using h2)
    simpa using this

theorem parseTimeStr_two (hs ms : List Char) (s ssd : String)
    (hsp : splitChar ':' s.toList = [hs, ms]) :
    parseTimeStr s ssd =
      match parseU32 hs, parseU32 ms, parseDateYMD ssd with
      | some hour, some minute, some date =>
        if hour ≤ 23 ∧ minute ≤ 59 then
          some { time := some (utcTimestamp date hour minute) }
        else none
      | _, _, _ => none := by
  rw [parseTimeStr, hsp]

/-- C7: `parse_time` prefers `at` over `et`; the time string must split on
`:` into exactly two numeric (`u32`) parts; the event is the UTC epoch of
the parsed `ssd` date at `HH:MM:00`; any failing component — including an
hour of 24 or more — yields `none`. -/
theorem parse_time_spec :
    (∀ (f : Forecast) (ssd t : String), f.at' = some t →
      parse_time f ssd = parseTimeStr t ssd)
    ∧ (∀ (f : Forecast) (ssd t : String), f.at' = none → f.et = some t →
      parse_time f ssd = parseTimeStr t ssd)
    ∧ (∀ s ssd : String, (splitChar ':' s.toList).length ≠ 2 → parseTimeStr s ssd = none)
    ∧ (∀ (s ssd : String) (hs ms : List Char) (h : Nat),
        splitChar ':' s.toList = [hs, ms] → parseU32 hs = some h → 24 ≤ h →
        parseTimeStr s ssd = none)
    ∧ (∀ s ssd : String, parseDateYMD ssd = none → parseTimeStr s ssd = none)
    ∧ (∀ (s ssd : String) (ev : StopTimeEvent), parseTimeStr s ssd = some ev ↔
        ∃ (hs ms : List Char) (h m : Nat) (date : NDate),
          splitChar ':' s.toList = [hs, ms] ∧ parseU32 hs = some h ∧ parseU32 ms = some m ∧
          parseDateYMD ssd = some date ∧ h ≤ 23 ∧ m ≤ 59 ∧
          ev = { time := some (utcTimestamp date h m) }) := by
  refine ⟨?_, ?_, ?_, ?_, ?_, ?_⟩
  · intro f ssd t ht
    rw [parse_time, ht]
  · intro f ssd t hat het
    rw [parse_time, hat, het]
  · intro s ssd hlen
    rw [parseTimeStr]
    rcases hsp : splitChar ':' s.toList with _ | ⟨hs, tl⟩
    · rfl
    · rcases tl with _ | ⟨ms, tl2⟩
      · rfl
      · rcases tl2 with _ | ⟨x, tl3⟩
        · exact absurd (by rw [hsp]; rfl) hlen
        · rfl
  · intro s ssd hs ms h hsp hh h24
    rw [parseTimeStr_two hs ms s ssd hsp, hh]
    cases hm : parseU32 ms with
    | none => rfl
    | some m =>
      cases hd : parseDateYMD ssd with
      | none => rfl
      | some date =>
        show (if h ≤ 23 ∧ m ≤ 59 then
            some { time := some (utcTimestamp date h m) } else none : Option StopTimeEvent) = none
        rw [if_neg]
        intro hc
        omega
  · intro s ssd hd
    rcases hsp : splitChar ':' s.toList with _ | ⟨hs, tl⟩
    · rw [parseTimeStr, hsp]
    · rcases tl with _ | ⟨ms, tl2⟩
      · rw [parseTimeStr, hsp]
      · rcases tl2 with _ | ⟨x, tl3⟩
        · rw [parseTimeStr_two hs ms s ssd hsp, hd]
          cases hh : parseU32 hs with
          | none => rfl
          | some h =>
            cases hm : parseU32 ms with
            | none => rfl
            | some m => rfl
        · rw [parseTimeStr, hsp]
  · intro s ssd ev
    constructor
    · intro hev
      rcases hsp : splitChar ':' s.toList with _ | ⟨hs, tl⟩
      · rw [parseTimeStr, hsp] at hev
        exact absurd hev (by simp)
      · rcases tl with _ | ⟨ms, tl2⟩
        · rw [parseTimeStr, hsp] at hev
          exact absurd hev (by simp)
        · rcases tl2 with _ | ⟨x, tl3⟩
          · rw [parseTimeStr_two hs ms s ssd hsp] at hev
            rcases hh : parseU32 hs with _ | h
            · rw [hh] at hev
              exact absurd hev (by simp)
            · rcases hm : parseU32 ms with _ | m
              · rw [hh, hm] at hev
                exact absurd hev (by simp)
              · rcases hd : parseDateYMD ssd with _ | date
                · rw [hh, hm, hd] at hev
                  exact absurd hev (by simp)
                · rw [hh, hm, hd] at hev
                  have hev2 : (if h ≤ 23 ∧ m ≤ 59 then
                      some { time := some (utcTimestamp date h m) }
                      else none : Option StopTimeEvent) = some ev := hev
                  by_cases hok : h ≤ 23 ∧ m ≤ 59
                  · rw [if_pos hok] at hev2
                    rcases Option.some.injEq _ _ ▸ hev2 with rfl
                    exact ⟨hs, ms, h, m, date, rfl, hh, hm, rfl, hok.1, hok.2, rfl⟩
                  · rw [if_neg hok] at hev2
                    exact absurd hev2 (by simp)
          · rw [parseTimeStr, hsp] at hev
            exact absurd hev (by simp)
    · intro hex
      rcases hex with ⟨hs, ms, h, m, date, hsp, hh, hm, hd, h23, m59, hev⟩
      rw [parseTimeStr_two hs ms s ssd hsp, hh, hm, hd, hev]
      show (if h ≤ 23 ∧ m ≤ 59 then
          some { time := some (utcTimestamp date h m) } else none : Option StopTimeEvent) =
        some { time := some (utcTimestamp date h m) }
      rw [if_pos ⟨h23, m59⟩]

/-- C1: loop disambiguation.  When the static stop sequence visits `sid` at
sequences `s1 < s2` (and nowhere earlier), two locations for that stop in
document order receive `s1` then `s2` — never both `s1` — because the
forward greedy scan starts at the cursor and advances past each match; and
whenever nothing at or after the cursor matches, no sequence is
associated. -/
theorem loop_disambiguation :
    (∀ (g : GtfsIndex) (today : NDate) (ts : TrainStatus) (tid : String)
       (A B C : List (String × Nat)) (sid : String) (s1 s2 : Nat),
      resolveTripId g today ts = some tid →
      tripStopsOf g tid = A ++ (sid, s1) :: (B ++ (sid, s2) :: C) →
      sid ∉ A.map Prod.fst → sid ∉ B.map Prod.fst → s1 < s2 →
      locStopIds g ts.locations = [some sid, some sid] →
      assignSeqs (tripStopsOf g tid) 0 (locStopIds g ts.locations) = [some s1, some s2])
    ∧ (∀ (stops : List (String × Nat)) (idx : Nat) (sid : String),
        (∀ e ∈ stops.drop idx, e.1 ≠ sid) → findSeq stops idx sid = none) := by
  constructor
  · intro g today ts tid A B C sid s1 s2 _ hstops hA hB _ hlocs
    rw [hstops, hlocs]
    exact assignSeqs_two_visits A B C sid s1 s2 hA hB
  · exact findSeq_none

/-- C8 (amended): by the time `update_trip` returns, the rid mapping it
wrote points at a key that is present in `trip_updates` (the entity upsert
immediately follows the rid insertion). -/
theorem rid_mapping_present_after_update (g : GtfsIndex) (today : NDate)
    (fmt : NDate → Nat → String) (ts : TrainStatus) (s s' : AppState) (tid : String)
    (hup : updateTrip g today fmt ts s = some s')
    (hres : resolveTripId g today ts = some tid) :
    mapLookup ts.rid s'.rid_to_trip_id = some tid ∧
    (mapLookup tid s'.trip_updates).isSome = true := by
  have hfind : g.find_trip_id ts.uid ((parseDateYMD ts.ssd).getD today) = some tid := hres
  have h2 : updateTrip g today fmt ts s =
      updateTripResolved g fmt ((parseDateYMD ts.ssd).getD today) tid ts s := by
    rw [updateTrip.eq_def]
    simp only [hfind]
  rw [h2] at hup
  rcases htu : (entityOf g fmt ((parseDateYMD ts.ssd).getD today) tid s).trip_update
    with _ | tu
  · rw [updateTripResolved.eq_def] at hup
    simp only [htu] at hup
    exact absurd hup (by simp)
  · rw [updateTripResolved_char g fmt ((parseDateYMD ts.ssd).getD today) tid ts s tu htu]
      at hup
    rcases Option.some.injEq _ _ ▸ hup with rfl
    constructor
    · exact mapLookup_insert_self ts.rid tid s.rid_to_trip_id
    · rw [mapLookup_insert_self]
      rfl

/-! ### Counterexamples and witnesses -/

/-- C4 counterexample: replaying the same `TrainStatus` twice differs from
applying it once — the second location's stop-id fallback overwrote the
seq-5 entry with a sequence-less one, and the replay resurrects seq 5. -/
theorem updateTrip_not_idempotent_cex :
    ¬ ((updateTrip gCex d0 fmt0 tsCex emptyState).bind (updateTrip gCex d0 fmt0 tsCex) =
      updateTrip gCex d0 fmt0 tsCex emptyState) := by
  decide

/-- C4 witness: on a frame whose locations all resolve sequences, applying
twice equals applying once. -/
theorem updateTrip_idempotent_witness :
    (updateTrip gWit d0 fmt0 tsWit emptyState).bind (updateTrip gWit d0 fmt0 tsWit) =
      updateTrip gWit d0 fmt0 tsWit emptyState := by
  refine updateTrip_idempotent gWit d0 fmt0 tsWit emptyState ?_
  intro tid h
  have h2 : resolveTripId gWit d0 tsWit = some "T" := by decide
  rw [h2] at h
  rcases Option.some.injEq _ _ ▸ h with rfl
  decide

/-- C1 witness: sequences 3 and 11 are assigned in order, and a scan past
the last occurrence yields no sequence. -/
theorem loop_disambiguation_witness :
    assignSeqs (tripStopsOf gLoopW "T") 0 (locStopIds gLoopW tsLoopW.locations) =
      [some 3, some 11] ∧
    findSeq [("XS", 3)] 1 "XS" = none := by
  constructor
  · exact loop_disambiguation.1 gLoopW d0 tsLoopW "T" [] [("YS", 5)] [] "XS" 3 11
      (by decide) (by decide) (by decide) (by decide) (by decide) (by decide)
  · exact loop_disambiguation.2 [("XS", 3)] 1 "XS" (by decide)

/-- C2 witness: the written platform entry is sourced from a non-suppressed
location, and flipping `cisPlatsup`/`conf` changes nothing. -/
theorem updateTrip_platform_suppression_witness :
    ((∃ entry0, mapLookup "T" emptyState.platforms_v2 = some entry0 ∧ pi2w ∈ entry0) ∨
      PlatformSourced gWit tsPlat.locations pi2w.stop_id pi2w.platform) ∧
    updateTrip gWit d0 fmt0 (setInfoFlags (some true) (some false) tsPlat) emptyState =
      updateTrip gWit d0 fmt0 tsPlat emptyState := by
  constructor
  · exact (updateTrip_platform_suppression gWit d0 fmt0 tsPlat emptyState).1 s2w (by decide)
      "T" entry2w (by decide) pi2w (by decide)
  · exact (updateTrip_platform_suppression gWit d0 fmt0 tsPlat emptyState).2
      (some true) (some false)

/-- C3 witness: the entity produced from the empty state satisfies the
sorted/unique invariant. -/
theorem updateTrip_preserves_stuInv_witness : stuInv e3w := by
  refine updateTrip_preserves_stuInv gWit d0 fmt0 tsWit emptyState s3w (by decide) ?_ "T" e3w
    (by decide)
  intro kv h
  exact absurd h (List.not_mem_nil kv)

/-- C5 witness: a concrete state with a trip, a vehicle sidecar and a
platform table survives the snapshot round-trip. -/
theorem snapshot_roundtrip_witness :
    (load_state (save_state 1716111000 s5w) emptyState).trip_updates = s5w.trip_updates ∧
    (load_state (save_state 1716111000 s5w) emptyState).platforms_v2 = s5w.platforms_v2 :=
  snapshot_roundtrip s5w 1716111000 (by decide) (by decide) (by decide)

/-- C6 witness: with `now = 10000` and threshold 3600 s only the stale trip,
its platform list and its inbound rid entry are removed. -/
theorem cleanup_old_trips_spec_witness :
    (cleanup_old_trips 10000 3600 s6w).trip_updates = [("new", eNew6)] ∧
    (cleanup_old_trips 10000 3600 s6w).platforms_v2 = [] ∧
    (cleanup_old_trips 10000 3600 s6w).rid_to_trip_id = [("r2", "new")] := by
  have h := cleanup_old_trips_spec s6w 10000 3600 (by decide)
  refine ⟨?_, ?_, ?_⟩
  · rw [h.1]
    decide
  · rw [h.2.1]
    decide
  · rw [h.2.2.1]
    decide

/-- C7 witness: `at` wins over `et`; wrong shapes and hour 25 are rejected;
an invalid date is rejected. -/
theorem parse_time_spec_witness :
    parse_time { et := some "09:45", at' := some "09:30" } "2024-05-19" =
      parseTimeStr "09:30" "2024-05-19" ∧
    parseTimeStr "9:30:00" "2024-05-19" = none ∧
    parseTimeStr "25:00" "2024-05-19" = none ∧
    parseTimeStr "09:30" "2024-13-45" = none := by
  refine ⟨parse_time_spec.1 _ "2024-05-19" "09:30" rfl,
    parse_time_spec.2.2.1 "9:30:00" "2024-05-19" (by decide),
    parse_time_spec.2.2.2.1 "25:00" "2024-05-19" ['2', '5'] ['0', '0'] 25
      (by decide) (by decide) (by decide),
    parse_time_spec.2.2.2.2.1 "09:30" "2024-13-45" (by decide)⟩

/-- C8 counterexample: at the program point right after
`rid_to_trip_id.insert` on a fresh trip, the mapping already exists but the
referenced key is not yet in `trip_updates`. -/
theorem rid_at_creation_cex :
    ridInsertState gCex d0 tsCex emptyState = some s8 ∧
    mapLookup "R" s8.rid_to_trip_id = some "T" ∧
    mapLookup "T" s8.trip_updates = none := by
  decide

/-- C8 witness: after `update_trip` returns, the rid points at a present
trip key. -/
theorem rid_mapping_present_witness :
    mapLookup "R" s8w.rid_to_trip_id = some "T" ∧
    (mapLookup "T" s8w.trip_updates).isSome = true :=
  rid_mapping_present_after_update gWit d0 fmt0 tsWit emptyState s8w "T"
    (by decide) (by decide)

/-- C9 witness: the `T_VP` vehicle-position sidecar survives the GC pass
that removes its parent trip. -/
theorem cleanup_preserves_vehicle_entities_witness :
    ("T_VP", eVP) ∈ (cleanup_old_trips 10000 3600 s9w).trip_updates :=
  cleanup_preserves_vehicle_entities 10000 3600 s9w (by decide) "T_VP" eVP
    (by decide) (by decide)

end Darwin
